import Mathlib

/-!
Shallow embedding of the journey-summarising core of the bods-bus-data-collector
repository (src/journey_summariser.py, with the row schemas of
src/bus_data_models.py).

Modelling conventions:
* timestamps and scheduled departure times are seconds since the epoch (`Int`);
  `pandas` hour/day flooring becomes integer arithmetic on seconds;
* latitude/longitude/bearing and all derived statistics are exact rationals
  (`ℚ`), so `speed = dist / time` is the literal field computation of
  `calculate_deltas` (journey_summariser.py line 90);
* the geodesic distance of `geopy.distance.distance(...).miles` is a parameter
  `gdist : ℚ → ℚ → ℚ → ℚ → ℚ` of every definition that needs it (the exact
  ellipsoid model is an implementation choice of the external library);
* a pandas `DataFrame` built from a list of records is a `List` of structures;
  a frame built from the empty record list has no columns at all, which is what
  makes `route_deltas["speed"]` raise `KeyError` on empty input — column lookup
  is modelled explicitly where that matters;
* Python exceptions (`KeyError`, `NameError`, `IndexError`) are modelled with
  `Except PyError`; a raised exception propagates, which `Except` binds mirror.
-/

/-- Python exceptions that the summariser can actually raise. -/
inductive PyError where
  | keyError (k : String) : PyError
  | nameError (n : String) : PyError
  | indexError : PyError
  deriving DecidableEq

/-- One row of the `bus_location` table (bus_data_models.py lines 11-29): a raw
vehicle-monitoring ping as consumed by `journey_summariser.py`. -/
structure Ping where
  id : Int
  timestamp : Int
  line_ref : String
  direction_ref : String
  line_name : String
  operator_ref : String
  origin_ref : String
  origin_name : String
  destination_ref : String
  destination_name : String
  origin_aimed_departure_time : Int
  vehicle_lat : ℚ
  vehicle_lon : ℚ
  vehicle_bearing : ℚ
  vehicle_journey_ref : String
  vehicle_ref : String
  deriving DecidableEq

/-- Duplicate-detection key of `drop_duplicates(subset=[...])`
(journey_summariser.py lines 23-33). -/
def dedupKey (p : Ping) : Int × String × String × ℚ × ℚ × ℚ :=
  (p.timestamp, p.line_ref, p.direction_ref, p.vehicle_lat, p.vehicle_lon,
    p.vehicle_bearing)

/-- Floor a time in epoch seconds to the start of its hour, the meaning of
`origin_aimed_departure_time.dt.floor("h")` (line 36). -/
def floorHour (t : Int) : Int := t - t % 3600

/-- Floor a time in epoch seconds to the start of its (UTC) calendar day; this
is both `strftime("%Y-%m-%d")`-granularity and the SQL `date '...'` truncation
used by `generate_daily_summary`. -/
def dayFloor (t : Int) : Int := t - t % 86400

/-- Derived `hour` column (line 36): the hour in which the journey was
scheduled to depart, read from the scheduled departure time only. -/
def hourBucket (p : Ping) : Int := floorHour p.origin_aimed_departure_time

/-- Rendering of a departure time as the `"%Y-%m-%dT%H:%M%s"` format string of
line 49.  The trailing `%s` (glibc: seconds since the epoch) makes the real
format injective in the departure instant, which a decimal rendering of the
epoch seconds keeps. -/
def depString (t : Int) : String := toString t

/-- Derived `vehicle_journey_date_ref` column (lines 41-45): departure date
string joined to the cyclical vehicle journey ref. -/
def vehicle_journey_date_ref (p : Ping) : String :=
  toString (dayFloor p.origin_aimed_departure_time) ++ "_" ++ p.vehicle_journey_ref

/-- Derived `journey_date_line_ref` column (lines 46-54): the synthetic journey
key `operator_ref + "_" + departure-time string + "_" + line_ref + "_" +
vehicle_journey_ref`. -/
def journey_date_line_ref (p : Ping) : String :=
  p.operator_ref ++ "_" ++ depString p.origin_aimed_departure_time ++ "_"
    ++ p.line_ref ++ "_" ++ p.vehicle_journey_ref

/-- Keep the first row of every `dedupKey` group, dropping later duplicates:
`drop_duplicates(subset=[...])` with its default `keep="first"` (lines 23-33).
`seen` holds the keys of rows already emitted. -/
def keepFirstDedup (seen : List (Int × String × String × ℚ × ℚ × ℚ)) :
    List Ping → List Ping
  | [] => []
  | p :: ps =>
    if dedupKey p ∈ seen then keepFirstDedup seen ps
    else p :: keepFirstDedup (dedupKey p :: seen) ps

/-- Number of rows of `l` carrying journey key `k`: one entry of the
`groupby("journey_date_line_ref")["id"].count()` series of line 56. -/
def countKey (k : String) (l : List Ping) : Nat :=
  (l.filter (fun p => journey_date_line_ref p = k)).length

/-- Insert into a list sorted by the boolean preorder `le`. -/
def insertSortedBy {α : Type} (le : α → α → Bool) (a : α) : List α → List α
  | [] => [a]
  | b :: bs => if le a b then a :: b :: bs else b :: insertSortedBy le a bs

/-- Insertion sort by the boolean preorder `le`.  `pandas.sort_values` (and SQL
`ORDER BY`) only pin the result down when the sort keys are duplicate-free,
which is the situation in all theorems below (ingestion ids are a primary key);
for such inputs every correct sort agrees with this one. -/
def sortBy {α : Type} (le : α → α → Bool) : List α → List α
  | [] => []
  | a :: as => insertSortedBy le a (sortBy le as)

/-- Sort key of `sort_values(by=["timestamp", "id"])` (line 66). -/
def tsIdLE (a b : Ping) : Bool :=
  decide (a.timestamp < b.timestamp ∨
    (a.timestamp = b.timestamp ∧ a.id ≤ b.id))

/-- Sort key of the `ORDER BY id ASC` of the chunk query (line 309). -/
def idLE (a b : Ping) : Bool := decide (a.id ≤ b.id)

/-- `preprocess_locations` (lines 18-70): deduplicate, (derive the `hour`,
`vehicle_journey_date_ref` and `journey_date_line_ref` columns — functions of
the base fields, recomputed on demand here), drop every row of a journey key
with fewer than `drop_threshold` rows, and sort by `(timestamp, id)`. -/
def preprocess_locations (raw_locations_df : List Ping) (drop_threshold : Nat) :
    List Ping :=
  let deduped := keepFirstDedup [] raw_locations_df
  let kept := deduped.filter
    (fun p => decide (drop_threshold ≤ countKey (journey_date_line_ref p) deduped))
  sortBy tsIdLE kept

/-- One `(time, speed, dist)` record appended by the loop of
`calculate_deltas` (lines 91-97). -/
structure Delta where
  time : ℚ
  speed : ℚ
  dist : ℚ
  deriving DecidableEq

/-- The delta record `calculate_deltas` builds for the consecutive pair
`(a, b)`: distance in miles between the two positions, elapsed time in hours,
and their exact quotient. -/
def mkDelta (gdist : ℚ → ℚ → ℚ → ℚ → ℚ) (a b : Ping) : Delta :=
  let d := gdist a.vehicle_lat a.vehicle_lon b.vehicle_lat b.vehicle_lon
  let t : ℚ := ((b.timestamp - a.timestamp : Int) : ℚ) / 3600
  { time := t, speed := d / t, dist := d }

/-- `calculate_deltas` (lines 73-98): walk consecutive pairs of the given
position rows, skip a pair exactly when its elapsed time is zero, and record
`(time, speed, dist)` otherwise. -/
def calculate_deltas (gdist : ℚ → ℚ → ℚ → ℚ → ℚ) : List Ping → List Delta
  | a :: b :: rest =>
    let t : ℚ := ((b.timestamp - a.timestamp : Int) : ℚ) / 3600
    (if t ≠ 0 then [mkDelta gdist a b] else []) ++ calculate_deltas gdist (b :: rest)
  | _ => []

/-- Number of consecutive pairs with exactly zero elapsed time. -/
def zeroDurationPairs (l : List Ping) : Nat :=
  ((l.zip l.tail).filter (fun ab => decide (ab.2.timestamp = ab.1.timestamp))).length

/-- Sum of a list of rationals. -/
def qsum (l : List ℚ) : ℚ := l.foldl (fun a b => a + b) 0

/-- `pandas` `.mean()` of a column. -/
def qmean (l : List ℚ) : ℚ := qsum l / (l.length : ℚ)

/-- `pandas` `.min()` of a column (only used on non-empty columns). -/
def qmin (l : List ℚ) : ℚ :=
  match l with
  | [] => 0
  | x :: xs => xs.foldl min x

/-- `pandas` `.max()` of a column (only used on non-empty columns). -/
def qmax (l : List ℚ) : ℚ :=
  match l with
  | [] => 0
  | x :: xs => xs.foldl max x

/-- Rational comparison as a boolean, for sorting a column. -/
def qLE (a b : ℚ) : Bool := decide (a ≤ b)

/-- `pandas` `.median()` of a column: sort, take the middle value, averaging
the two middle values when the length is even (only used on non-empty
columns). -/
def qmedian (l : List ℚ) : ℚ :=
  let s := sortBy qLE l
  let n := s.length
  if n % 2 = 1 then s.getD (n / 2) 0
  else (s.getD (n / 2 - 1) 0 + s.getD (n / 2) 0) / 2

/-- The statistic fields of the Series built by `summarise_journey_stats`
(lines 106-125), in the source's field names. -/
structure JStats where
  num_points_stationary : Nat
  num_points : Nat
  time_total_hrs : ℚ
  time_intv_med : ℚ
  time_intv_mean : ℚ
  time_intv_min : ℚ
  time_intv_max : ℚ
  dist_total_miles : ℚ
  dist_intv_med_miles : ℚ
  dist_intv_mean_miles : ℚ
  speed_min_mph : ℚ
  speed_max_mph : ℚ
  speed_med_mph : ℚ
  speed_mean_mph : ℚ
  deriving DecidableEq

/-- Columns of the DataFrame `calculate_deltas` returns: `pd.DataFrame` of the
record list `speed_times` has the three columns when at least one record was
appended, and no columns at all when the list is empty. -/
def deltaColumns (l : List Delta) : List String :=
  if l.isEmpty then [] else ["time", "speed", "dist"]

/-- `summarise_journey_stats` (lines 101-125).  Its first dictionary entry
evaluates `route_deltas["speed"]`, so on a column-less (empty) delta frame the
function raises `KeyError('speed')`; on a non-empty frame every statistic is
defined. -/
def summarise_journey_stats (route_deltas : List Delta) (stopped_threshold : ℚ) :
    Except PyError JStats :=
  if "speed" ∈ deltaColumns route_deltas then
    let times := route_deltas.map Delta.time
    let speeds := route_deltas.map Delta.speed
    let dists := route_deltas.map Delta.dist
    Except.ok
      { num_points_stationary := (speeds.filter (fun s => decide (s < stopped_threshold))).length
        num_points := route_deltas.length
        time_total_hrs := qsum times
        time_intv_med := qmedian times
        time_intv_mean := qmean times
        time_intv_min := qmin times
        time_intv_max := qmax times
        dist_total_miles := qsum dists
        dist_intv_med_miles := qmedian dists
        dist_intv_mean_miles := qmean dists
        speed_min_mph := qmin speeds
        speed_max_mph := qmax speeds
        speed_med_mph := qmedian speeds
        speed_mean_mph := qmean speeds }
  else Except.error (PyError.keyError "speed")

/-- One row of `summarise_all_journeys` output, i.e. one `journey_summary`
record (bus_data_models.py lines 31-57): the identifying metadata appended to
the journey statistics.  `Series.append` concatenates the two field blocks;
`stats` holds the appended statistics block. -/
structure JRow where
  line_ref : String
  direction_ref : String
  origin_ref : String
  origin_name : String
  destination_ref : String
  destination_name : String
  hour : Int
  vehicle_journey_date_ref : String
  journey_date_line_ref : String
  vehicle_ref : String
  stats : JStats
  deriving DecidableEq

/-- `summarise_journey` (lines 162-180): metadata of the group's first row
(`.iloc[0]`, raising `IndexError` on an empty group) appended to the statistics
of the group's deltas. -/
def summarise_journey (gdist : ℚ → ℚ → ℚ → ℚ → ℚ) (journey_df : List Ping) :
    Except PyError JRow :=
  match journey_df with
  | [] => Except.error PyError.indexError
  | p :: _ =>
    (summarise_journey_stats (calculate_deltas gdist journey_df) 1).map
      (fun st =>
        { line_ref := p.line_ref
          direction_ref := p.direction_ref
          origin_ref := p.origin_ref
          origin_name := p.origin_name
          destination_ref := p.destination_ref
          destination_name := p.destination_name
          hour := hourBucket p
          vehicle_journey_date_ref := vehicle_journey_date_ref p
          journey_date_line_ref := journey_date_line_ref p
          vehicle_ref := p.vehicle_ref
          stats := st })

/-- Journey keys of `l` in order of first occurrence, each once.  (`groupby`
sorts group keys; every property stated below is order-insensitive, so the
first-occurrence enumeration of the same key set is used throughout.) -/
def firstOccKeysAux (seen : List String) : List Ping → List String
  | [] => []
  | p :: ps =>
    let k := journey_date_line_ref p
    if k ∈ seen then firstOccKeysAux seen ps
    else k :: firstOccKeysAux (k :: seen) ps

/-- Sequential mapping in the `Except` monad: the Python loop body applied to
each element in order, the first raised exception propagating. -/
def exceptMapList {α β : Type} (f : α → Except PyError β) :
    List α → Except PyError (List β)
  | [] => Except.ok []
  | a :: l =>
    match f a with
    | Except.error e => Except.error e
    | Except.ok b => (exceptMapList f l).map (fun bs => b :: bs)

/-- `summarise_all_journeys` (lines 183-185): group the frame by
`journey_date_line_ref` and apply `summarise_journey` to every group. -/
def summarise_all_journeys (gdist : ℚ → ℚ → ℚ → ℚ → ℚ)
    (locations_df : List Ping) : Except PyError (List JRow) :=
  exceptMapList
    (fun k => summarise_journey gdist
      (locations_df.filter (fun p => decide (journey_date_line_ref p = k))))
    (firstOccKeysAux [] locations_df)

/-- `convert_locations_to_journey_summaries` (lines 229-237): preprocess, then
summarise when at least one row survived, returning `None` otherwise. -/
def convert_locations_to_journey_summaries (gdist : ℚ → ℚ → ℚ → ℚ → ℚ)
    (locations_df : List Ping) : Except PyError (Option (List JRow)) :=
  let processed_locations_df := preprocess_locations locations_df 2
  if 1 ≤ processed_locations_df.length then
    (summarise_all_journeys gdist processed_locations_df).map (fun rows => some rows)
  else Except.ok none

/-- `convert_locations_to_hour_summaries` (lines 217-226).  Line 220 tests
`processed_locations.shape[0] > 1`, but no binding named `processed_locations`
exists anywhere in the module (the preprocessing result is bound to
`processed_locations_df`), so evaluating the branch condition raises
`NameError` before anything else can happen; the summarising calls below it are
dead code. -/
def convert_locations_to_hour_summaries (locations_df : List Ping) :
    Except PyError (Option (List JRow)) :=
  let processed_locations_df := preprocess_locations locations_df 2
  let _ := processed_locations_df
  Except.error (PyError.nameError "processed_locations")

/-- Numeric column lookup on a frame of journey-summary rows: the columns such
a frame actually has.  `summarise_hour_stats` asks for `"num_stationary"`,
which is not among them (the journey aggregator named it
`num_points_stationary`), so that lookup raises `KeyError`. -/
def jrowColQ (c : String) : Option (JRow → ℚ) :=
  match c with
  | "num_points_stationary" => some (fun r => (r.stats.num_points_stationary : ℚ))
  | "num_points" => some (fun r => (r.stats.num_points : ℚ))
  | "time_total_hrs" => some (fun r => r.stats.time_total_hrs)
  | "time_intv_med" => some (fun r => r.stats.time_intv_med)
  | "time_intv_mean" => some (fun r => r.stats.time_intv_mean)
  | "time_intv_min" => some (fun r => r.stats.time_intv_min)
  | "time_intv_max" => some (fun r => r.stats.time_intv_max)
  | "dist_total_miles" => some (fun r => r.stats.dist_total_miles)
  | "dist_intv_med_miles" => some (fun r => r.stats.dist_intv_med_miles)
  | "dist_intv_mean_miles" => some (fun r => r.stats.dist_intv_mean_miles)
  | "speed_min_mph" => some (fun r => r.stats.speed_min_mph)
  | "speed_max_mph" => some (fun r => r.stats.speed_max_mph)
  | "speed_med_mph" => some (fun r => r.stats.speed_med_mph)
  | "speed_mean_mph" => some (fun r => r.stats.speed_mean_mph)
  | _ => none

/-- `hour_df[c]` on a frame of journey-summary rows: the column's values, or
`KeyError` when the frame has no such column. -/
def frameCol (hour_df : List JRow) (c : String) : Except PyError (List ℚ) :=
  match jrowColQ c with
  | some f => Except.ok (hour_df.map f)
  | none => Except.error (PyError.keyError c)

/-- The statistic fields of the Series built by `summarise_hour_stats`
(lines 129-159), in the source's field names. -/
structure HStats where
  num_journeys : Nat
  num_stationary_mean : ℚ
  num_stationary_med : ℚ
  num_stationary_min : ℚ
  num_stationary_max : ℚ
  num_points_mean : ℚ
  num_points_med : ℚ
  num_points_max : ℚ
  num_points_min : ℚ
  time_total_mean_hrs : ℚ
  time_total_med_hrs : ℚ
  time_total_min_hrs : ℚ
  time_total_max_hrs : ℚ
  time_intv_mean : ℚ
  time_intv_med : ℚ
  time_intv_min : ℚ
  time_intv_max : ℚ
  dist_total_mean_miles : ℚ
  dist_total_med_miles : ℚ
  dist_total_min_miles : ℚ
  dist_total_max_miles : ℚ
  dist_intv_med_miles : ℚ
  dist_intv_mean_miles : ℚ
  speed_min_mph : ℚ
  speed_max_mph : ℚ
  speed_med_mph : ℚ
  speed_mean_mph : ℚ
  deriving DecidableEq

/-- `summarise_hour_stats` (lines 128-159), entry for entry in source order.
Building the dictionary evaluates every entry; the first column lookup
`hour_df["num_stationary"]` (line 132) fails on a journey-summary frame, so
the function raises `KeyError('num_stationary')` before any statistic is
computed.  The remaining entries are transcribed as written, including the
source's swapped `time_total_min_hrs`/`time_total_max_hrs` (lines 142-143,
computed from `.max()` and `.min()` respectively), its `time_total_med_hrs`
computed with `.mean()` (line 141), and its `time_intv_med`,
`dist_intv_med_miles` and `speed_med_mph` computed as means of the per-journey
medians (lines 145, 152, 156). -/
def summarise_hour_stats (hour_df : List JRow) : Except PyError HStats := do
  let ns ← frameCol hour_df "num_stationary"
  let np ← frameCol hour_df "num_points"
  let tt ← frameCol hour_df "time_total_hrs"
  let tim ← frameCol hour_df "time_intv_mean"
  let tid ← frameCol hour_df "time_intv_med"
  let tmin ← frameCol hour_df "time_intv_min"
  let tmax ← frameCol hour_df "time_intv_max"
  let dt ← frameCol hour_df "dist_total_miles"
  let did ← frameCol hour_df "dist_intv_med_miles"
  let dim ← frameCol hour_df "dist_intv_mean_miles"
  let smin ← frameCol hour_df "speed_min_mph"
  let smax ← frameCol hour_df "speed_max_mph"
  let smed ← frameCol hour_df "speed_med_mph"
  let smean ← frameCol hour_df "speed_mean_mph"
  Except.ok
    { num_journeys := hour_df.length
      num_stationary_mean := qmean ns
      num_stationary_med := qmedian ns
      num_stationary_min := qmin ns
      num_stationary_max := qmax ns
      num_points_mean := qmean np
      num_points_med := qmedian np
      num_points_max := qmax np
      num_points_min := qmin np
      time_total_mean_hrs := qmean tt
      time_total_med_hrs := qmean tt
      time_total_min_hrs := qmax tt
      time_total_max_hrs := qmin tt
      time_intv_mean := qmean tim
      time_intv_med := qmean tid
      time_intv_min := qmin tmin
      time_intv_max := qmax tmax
      dist_total_mean_miles := qmean dt
      dist_total_med_miles := qmedian dt
      dist_total_min_miles := qmin dt
      dist_total_max_miles := qmax dt
      dist_intv_med_miles := qmean did
      dist_intv_mean_miles := qmean dim
      speed_min_mph := qmin smin
      speed_max_mph := qmax smax
      speed_med_mph := qmean smed
      speed_mean_mph := qmean smean }

/-- Whether the scheduled departure time of `p` falls inside the processing
chunk starting at `s` of `chunk_size` hours: the `origin_aimed_departure_time
>= start_hour`, `< end_hour` filter of the chunk query (lines 300-310). -/
def inChunk (s : Int) (chunk_size : Nat) (p : Ping) : Prop :=
  s ≤ p.origin_aimed_departure_time ∧
    p.origin_aimed_departure_time < s + 3600 * chunk_size

instance (s : Int) (c : Nat) (p : Ping) : Decidable (inChunk s c p) := by
  unfold inChunk; infer_instance

/-- Number of chunks `process_day` iterates over: the recurrence of lines
286-297 runs `HOURLY` with interval `chunk_size` from `start_dt` while the
occurrence stays at or below `end_dt - chunk_size` hours (`until` is
inclusive), and the offset recurrence zipped with it has the same length. -/
def numChunks (start_dt end_dt : Int) (chunk_size : Nat) : Nat :=
  if start_dt ≤ end_dt - 3600 * chunk_size then
    (end_dt - 3600 * chunk_size - start_dt).toNat / (3600 * chunk_size) + 1
  else 0

/-- The chunk start times `process_day` iterates over (lines 286-298). -/
def chunkStarts (start_dt end_dt : Int) (chunk_size : Nat) : List Int :=
  (List.range (numChunks start_dt end_dt chunk_size)).map
    (fun i : Nat => start_dt + 3600 * chunk_size * (i : Int))

/-- The frame the chunk query of lines 300-313 yields: the stored pings whose
scheduled departure time lies in the chunk, in `ORDER BY id ASC` order. -/
def chunkFrame (db : List Ping) (s : Int) (chunk_size : Nat) : List Ping :=
  sortBy idLE (db.filter (fun p => decide (inChunk s chunk_size p)))

/-- The body of one `process_day` loop iteration (lines 298-331): fetch the
chunk frame, and when it has more than one row convert it to journey
summaries, collecting the produced rows (a `None` result and a skipped chunk
both contribute nothing). -/
def chunkRows (gdist : ℚ → ℚ → ℚ → ℚ → ℚ) (db : List Ping) (s : Int)
    (chunk_size : Nat) : Except PyError (List JRow) :=
  let hour_bus_locs_df := chunkFrame db s chunk_size
  if 1 < hour_bus_locs_df.length then
    (convert_locations_to_journey_summaries gdist hour_bus_locs_df).map
      (fun res => res.getD [])
  else Except.ok []

/-- The chunk loop of `process_day`: iterate the chunk starts in order,
concatenating each chunk's inserted journey-summary rows; a raised exception
aborts the loop. -/
def processChunks (gdist : ℚ → ℚ → ℚ → ℚ → ℚ) (db : List Ping)
    (chunk_size : Nat) : List Int → Except PyError (List JRow)
  | [] => Except.ok []
  | s :: rest =>
    match chunkRows gdist db s chunk_size with
    | Except.error e => Except.error e
    | Except.ok rows => (processChunks gdist db chunk_size rest).map
        (fun acc => rows ++ acc)

/-- `process_day` (lines 262-331) over an abstract stored-ping table `db`: the
journey-summary rows the run hands to `bulk_insert_mappings`, chunk by chunk. -/
def process_day (gdist : ℚ → ℚ → ℚ → ℚ → ℚ) (db : List Ping)
    (start_dt end_dt : Int) (chunk_size : Nat) : Except PyError (List JRow) :=
  processChunks gdist db chunk_size (chunkStarts start_dt end_dt chunk_size)

/-- Outcome equivalence for two orchestrator runs: both raise the same
exception, or both succeed with the same multiset of journey-summary rows. -/
def resultsMatch (r1 r2 : Except PyError (List JRow)) : Prop :=
  match r1, r2 with
  | Except.error e1, Except.error e2 => e1 = e2
  | Except.ok l1, Except.ok l2 => l1.Perm l2
  | Except.error _, Except.ok _ => False
  | Except.ok _, Except.error _ => False

instance (r1 r2 : Except PyError (List JRow)) : Decidable (resultsMatch r1 r2) := by
  unfold resultsMatch
  match r1, r2 with
  | Except.error e1, Except.error e2 => exact decEq e1 e2
  | Except.ok l1, Except.ok l2 =>
    exact decidable_of_iff ((l1 : Multiset JRow) = l2) Multiset.coe_eq_coe
  | Except.error _, Except.ok _ => exact instDecidableFalse
  | Except.ok _, Except.error _ => exact instDecidableFalse

/-- The `WHERE` clause of the detailed report query (lines 412-413):
`hour <= date '(start_dt - 1 day)' AND hour > date '(start_dt - (d - 1) days)'`,
the SQL `date` literal truncating its argument to midnight. -/
def detailedWhere (start_dt : Int) (num_detailed_days : Nat) (hour : Int) : Prop :=
  hour ≤ dayFloor (start_dt - 86400) ∧
    dayFloor (start_dt - 86400 * ((num_detailed_days : Int) - 1)) < hour

instance (s : Int) (d : Nat) (h : Int) : Decidable (detailedWhere s d h) := by
  unfold detailedWhere; infer_instance

/-- The `WHERE` clause of the summary report query (lines 435-438), identical
in shape with `num_summary_days` in place of `num_detailed_days`. -/
def summaryWhere (start_dt : Int) (num_summary_days : Nat) (hour : Int) : Prop :=
  hour ≤ dayFloor (start_dt - 86400) ∧
    dayFloor (start_dt - 86400 * ((num_summary_days : Int) - 1)) < hour

instance (s : Int) (d : Nat) (h : Int) : Decidable (summaryWhere s d h) := by
  unfold summaryWhere; infer_instance

/-- Rows of the `journey_summary` table the detailed query selects. -/
def detailedSelect (table : List JRow) (start_dt : Int) (num_detailed_days : Nat) :
    List JRow :=
  table.filter (fun r => decide (detailedWhere start_dt num_detailed_days r.hour))

/-- Rows of the `journey_summary` table the summary query selects. -/
def summarySelect (table : List JRow) (start_dt : Int) (num_summary_days : Nat) :
    List JRow :=
  table.filter (fun r => decide (summaryWhere start_dt num_summary_days r.hour))

/-- `extract('hour' from hour)` (line 433): the hour-of-day (0-23) of an hour
bucket. -/
def hourOfDay (hour : Int) : Int := (hour % 86400) / 3600

/-- One aggregate row of either report query (lines 395-411 / 418-433):
min/max/avg of four journey statistics plus the group's line ref, its group
key (`hour` for the detailed view, hour-of-day for the summary view) and the
journey count. -/
structure ReportRow where
  num_points_stationary_min : ℚ
  num_points_stationary_max : ℚ
  num_points_stationary_avg : ℚ
  time_total_hrs_min : ℚ
  time_total_hrs_max : ℚ
  time_total_hrs_avg : ℚ
  speed_mean_mph_min : ℚ
  speed_mean_mph_max : ℚ
  speed_mean_mph_avg : ℚ
  speed_med_mph_min : ℚ
  speed_med_mph_max : ℚ
  speed_med_mph_avg : ℚ
  line_ref : String
  groupHour : Int
  num_journeys : Nat
  deriving DecidableEq

/-- Aggregate one `GROUP BY` group of journey-summary rows into a report row
(`MIN`/`MAX`/`AVG`/`COUNT(*)` over the group). -/
def mkReportRow (group : List JRow) (line : String) (groupHour : Int) : ReportRow :=
  { num_points_stationary_min := qmin (group.map (fun r => (r.stats.num_points_stationary : ℚ)))
    num_points_stationary_max := qmax (group.map (fun r => (r.stats.num_points_stationary : ℚ)))
    num_points_stationary_avg := qmean (group.map (fun r => (r.stats.num_points_stationary : ℚ)))
    time_total_hrs_min := qmin (group.map (fun r => r.stats.time_total_hrs))
    time_total_hrs_max := qmax (group.map (fun r => r.stats.time_total_hrs))
    time_total_hrs_avg := qmean (group.map (fun r => r.stats.time_total_hrs))
    speed_mean_mph_min := qmin (group.map (fun r => r.stats.speed_mean_mph))
    speed_mean_mph_max := qmax (group.map (fun r => r.stats.speed_mean_mph))
    speed_mean_mph_avg := qmean (group.map (fun r => r.stats.speed_mean_mph))
    speed_med_mph_min := qmin (group.map (fun r => r.stats.speed_med_mph))
    speed_med_mph_max := qmax (group.map (fun r => r.stats.speed_med_mph))
    speed_med_mph_avg := qmean (group.map (fun r => r.stats.speed_med_mph))
    line_ref := line
    groupHour := groupHour
    num_journeys := group.length }

/-- Group keys of selected rows under a key function, in first-occurrence
order, each once (SQL leaves the group output order unspecified; every
property stated below is order-insensitive). -/
def groupKeysAux {κ : Type} [DecidableEq κ] (key : JRow → κ) (seen : List κ) :
    List JRow → List κ
  | [] => []
  | r :: rs =>
    let k := key r
    if k ∈ seen then groupKeysAux key seen rs
    else k :: groupKeysAux key (k :: seen) rs

/-- The rows of the detailed view: `GROUP BY hour, line_ref` over the selected
rows (lines 395-416). -/
def detailedView (table : List JRow) (start_dt : Int) (num_detailed_days : Nat) :
    List ReportRow :=
  let sel := detailedSelect table start_dt num_detailed_days
  (groupKeysAux (fun r => (r.hour, r.line_ref)) [] sel).map
    (fun k => mkReportRow
      (sel.filter (fun r => decide ((r.hour, r.line_ref) = k))) k.2 k.1)

/-- The rows of the summary view: `GROUP BY hour_num, line_ref` over the
selected rows (lines 418-439). -/
def summaryView (table : List JRow) (start_dt : Int) (num_summary_days : Nat) :
    List ReportRow :=
  let sel := summarySelect table start_dt num_summary_days
  (groupKeysAux (fun r => (hourOfDay r.hour, r.line_ref)) [] sel).map
    (fun k => mkReportRow
      (sel.filter (fun r => decide ((hourOfDay r.hour, r.line_ref) = k))) k.2 k.1)

/-- The JSON object `generate_daily_summary` serialises (lines 444-449). -/
structure Report where
  detailed : List ReportRow
  summary : List ReportRow
  num_days : Nat
  start : Int
  deriving DecidableEq

/-- `generate_daily_summary` (lines 383-451) over an abstract
`journey_summary` table: both aggregate views plus the report metadata
(`start` is the `"%Y-%m-%d"`-rendered reference date, modelled as its day
floor). -/
def generate_daily_summary (table : List JRow) (start_dt : Int)
    (num_detailed_days num_summary_days : Nat) : Report :=
  { detailed := detailedView table start_dt num_detailed_days
    summary := summaryView table start_dt num_summary_days
    num_days := num_detailed_days
    start := dayFloor start_dt }

/-- Modelled from the spec (§4.6), for comparison with the code: the claimed
detailed window, "the most recent `detailed_days` calendar days ending the day
before the reference date", i.e. hour buckets from midnight `detailed_days`
days before the reference date's day (inclusive) up to the reference date's
own midnight (exclusive). -/
def specDetailedWindow (start_dt : Int) (num_detailed_days : Nat) (hour : Int) :
    Prop :=
  dayFloor start_dt - 86400 * (num_detailed_days : Int) ≤ hour ∧
    hour < dayFloor start_dt

instance (s : Int) (d : Nat) (h : Int) : Decidable (specDetailedWindow s d h) := by
  unfold specDetailedWindow; infer_instance

/-- Strict version of the `(timestamp, id)` sort key. -/
def tsIdLT (a b : Ping) : Prop :=
  a.timestamp < b.timestamp ∨ (a.timestamp = b.timestamp ∧ a.id < b.id)

/-- Strict version of the ingestion-id sort key. -/
def idLT (a b : Ping) : Prop := a.id < b.id

/-- Whether `p` survives deduplication against the whole table `db`: no row of
`db` with the same `dedupKey` precedes it in ingestion-id order.  When every
duplicate group shares one scheduled departure time, this is exactly "p is the
row `drop_duplicates` keeps" in whichever chunk `p` is fetched, since that
chunk contains `p`'s whole duplicate group in id order. -/
def survivor (db : List Ping) (p : Ping) : Prop :=
  ∀ q ∈ db, dedupKey q = dedupKey p → ¬ q.id < p.id

instance (db : List Ping) (p : Ping) : Decidable (survivor db p) := by
  unfold survivor; infer_instance

/-- Number of deduplication survivors of `db` carrying journey key `k`: the
chunk-independent value of the per-chunk `groupby(...)["id"].count()` entry. -/
def survCount (db : List Ping) (k : String) : Nat :=
  (db.filter (fun q => decide (survivor db q) &&
    decide (journey_date_line_ref q = k))).length

/-- The deduplication survivors of `db` with journey key `k`, in
`(timestamp, id)` order: the chunk-independent value of the group a chunk run
hands to `summarise_journey` for key `k`. -/
def groupRows (db : List Ping) (k : String) : List Ping :=
  sortBy tsIdLE (db.filter (fun q => decide (survivor db q) &&
    decide (journey_date_line_ref q = k)))

/-- Concrete stand-in for the geodesic distance used in closed counterexamples
and witnesses: like `geopy`'s mileage it is nonnegative, symmetric, and zero
exactly between identical coordinates. -/
def taxicab (lat1 lon1 lat2 lon2 : ℚ) : ℚ := |lat2 - lat1| + |lon2 - lon1|

/-- Fixture builder: a ping with the given ingestion id, report timestamp,
scheduled departure time, position and vehicle journey ref on one fixed
operator/line/direction. -/
def mkPing (i ts dep : Int) (lat lon : ℚ) (vj : String) : Ping :=
  { id := i
    timestamp := ts
    line_ref := "L"
    direction_ref := "outbound"
    line_name := "L"
    operator_ref := "OP"
    origin_ref := "O"
    origin_name := "Origin"
    destination_ref := "D"
    destination_name := "Dest"
    origin_aimed_departure_time := dep
    vehicle_lat := lat
    vehicle_lon := lon
    vehicle_bearing := 0
    vehicle_journey_ref := vj
    vehicle_ref := "V" }

/-- Fixture: stored pings on which chunk size changes the result.  Ping 3
agrees with ping 1 on the whole `dedupKey` (timestamp, line, direction,
position, bearing) but belongs to a different journey, scheduled in a
different hour (00:30 vs 01:30). -/
def ceDb : List Ping :=
  [mkPing 1 1000 1800 0 0 "J1", mkPing 2 1400 1800 1 1 "J1",
    mkPing 3 1000 5400 0 0 "J2", mkPing 4 1400 5400 2 2 "J2"]

/-- Fixture: stored pings with pairwise distinct `dedupKey`s, two journeys in
two different hours of one day. -/
def goodDb : List Ping :=
  [mkPing 1 1000 1800 0 0 "J1", mkPing 2 1400 1800 1 1 "J1",
    mkPing 3 1100 5400 5 5 "J2", mkPing 4 1500 5400 2 2 "J2"]

/-- Fixture: two pings of one journey reported at the same instant, so the
journey's delta sequence is empty. -/
def sameInstantA : Ping := mkPing 1 1000 1800 0 0 "J1"

/-- Fixture: second ping at the same instant at another position. -/
def sameInstantB : Ping := mkPing 2 1000 1800 1 1 "J1"

/-- Fixture: later ping of a time-reversed pair standing at the same position. -/
def stillPingA : Ping := mkPing 1 3600 1800 0 0 "J1"

/-- Fixture: earlier ping of the time-reversed pair, same position. -/
def stillPingB : Ping := mkPing 2 0 1800 0 0 "J1"

/-- Fixture: later ping of a time-reversed pair that has moved. -/
def movedPingA : Ping := mkPing 1 3600 1800 0 0 "J1"

/-- Fixture: earlier ping of the moved time-reversed pair. -/
def movedPingB : Ping := mkPing 2 0 1800 1 1 "J1"

/-- Fixture: a journey scheduled at 23:50 (epoch second 85800). -/
def lateJourneyP : Ping := mkPing 1 85800 85800 0 0 "J9"

/-- Fixture: a ping of the same journey whose own report arrives at 01:30 the
next day (epoch second 91800). -/
def lateJourneyQ : Ping := mkPing 2 91800 85800 1 1 "J9"

/-- Fixture: three pings of one journey; the first consecutive pair has zero
elapsed time, the second does not. -/
def threePings : List Ping :=
  [mkPing 1 0 1800 0 0 "J1",
    mkPing 2 0 1800 1 0 "J1",
    mkPing 3 360 1800 2 0 "J1"]

/-- Fixture: an all-zero statistics block. -/
def zeroStats : JStats :=
  { num_points_stationary := 0
    num_points := 0
    time_total_hrs := 0
    time_intv_med := 0
    time_intv_mean := 0
    time_intv_min := 0
    time_intv_max := 0
    dist_total_miles := 0
    dist_intv_med_miles := 0
    dist_intv_mean_miles := 0
    speed_min_mph := 0
    speed_max_mph := 0
    speed_med_mph := 0
    speed_mean_mph := 0 }

/-- Fixture: a stored journey-summary row whose hour bucket is 23:00 of the
day before the reference date 0. -/
def eveRow : JRow :=
  { line_ref := "L"
    direction_ref := "outbound"
    origin_ref := "O"
    origin_name := "Origin"
    destination_ref := "D"
    destination_name := "Dest"
    hour := -3600
    vehicle_journey_date_ref := "x"
    journey_date_line_ref := "y"
    vehicle_ref := "V"
    stats := zeroStats }

/-- A journey key both scheduled inside the window `[lo, hi)` and kept by the
normalizer: some stored ping carries it, survives deduplication, its journey
has at least two surviving pings, and its scheduled departure time lies in the
window.  This is the chunk-independent description of the journey keys one
window's run summarises. -/
def qualKeyIn (db : List Ping) (lo hi : Int) (kstr : String) : Prop :=
  ∃ p ∈ db, journey_date_line_ref p = kstr ∧ survivor db p
    ∧ 2 ≤ survCount db kstr
    ∧ lo ≤ p.origin_aimed_departure_time ∧ p.origin_aimed_departure_time < hi

/-- The journey keys one chunk's run summarises, in the order the run visits
them: first occurrence over the chunk's preprocessed frame. -/
def chunkKeys (db : List Ping) (s : Int) (chunk_size : Nat) : List String :=
  firstOccKeysAux [] (preprocess_locations (chunkFrame db s chunk_size) 2)

/-- All journey keys one `process_day` run summarises, chunk by chunk. -/
def runKeys (db : List Ping) (start_dt end_dt : Int) (chunk_size : Nat) :
    List String :=
  ((chunkStarts start_dt end_dt chunk_size).map
    (fun s => chunkKeys db s chunk_size)).flatten

/-! Generic facts about the insertion sort used to model `sort_values` and
`ORDER BY`. -/

theorem perm_insertSortedBy {α : Type} (le : α → α → Bool) (a : α) :
    ∀ l : List α, (insertSortedBy le a l).Perm (a :: l) := by
  intro l
  induction l with
  | nil => simp [insertSortedBy]
  | cons b bs ih =>
    by_cases h : le a b
    · simp [insertSortedBy, h]
    · simp only [insertSortedBy, h, if_neg, Bool.false_eq_true, not_false_iff]
      exact ((ih.cons b).trans (List.Perm.swap a b bs))

theorem perm_sortBy {α : Type} (le : α → α → Bool) :
    ∀ l : List α, (sortBy le l).Perm l := by
  intro l
  induction l with
  | nil => exact List.Perm.refl []
  | cons a as ih =>
    exact (perm_insertSortedBy le a (sortBy le as)).trans (ih.cons a)

theorem mem_sortBy {α : Type} (le : α → α → Bool) (a : α) (l : List α) :
    a ∈ sortBy le l ↔ a ∈ l :=
  (perm_sortBy le l).mem_iff

theorem pairwise_insertSortedBy {α : Type} (le : α → α → Bool)
    (htot : ∀ a b, le a b = true ∨ le b a = true)
    (htrans : ∀ a b c, le a b = true → le b c = true → le a c = true)
    (a : α) (l : List α) (h : l.Pairwise (fun x y => le x y = true)) :
    (insertSortedBy le a l).Pairwise (fun x y => le x y = true) := by
  induction l with
  | nil => simp [insertSortedBy]
  | cons b bs ih =>
    rcases List.pairwise_cons.mp h with ⟨hb, hbs⟩
    by_cases hab : le a b = true
    · simp only [insertSortedBy, hab, if_pos]
      refine List.pairwise_cons.mpr ⟨?_, h⟩
      intro x hx
      rcases List.mem_cons.mp hx with hxb | hxbs
      · subst hxb; exact hab
      · exact htrans a b x hab (hb x hxbs)
    · have hba : le b a = true := (htot a b).resolve_left hab
      simp only [insertSortedBy, hab, if_neg, Bool.false_eq_true, not_false_iff]
      refine List.pairwise_cons.mpr ⟨?_, ih hbs⟩
      intro x hx
      rcases List.mem_cons.mp ((perm_insertSortedBy le a bs).mem_iff.mp hx) with hxa | hxbs
      · subst hxa; exact hba
      · exact hb x hxbs

theorem pairwise_sortBy {α : Type} (le : α → α → Bool)
    (htot : ∀ a b, le a b = true ∨ le b a = true)
    (htrans : ∀ a b c, le a b = true → le b c = true → le a c = true)
    (l : List α) : (sortBy le l).Pairwise (fun x y => le x y = true) := by
  induction l with
  | nil => simp [sortBy]
  | cons a as ih => exact pairwise_insertSortedBy le htot htrans a (sortBy le as) ih

theorem sortBy_eq_self {α : Type} (le : α → α → Bool) (l : List α)
    (h : l.Pairwise (fun x y => le x y = true)) : sortBy le l = l := by
  induction l with
  | nil => rfl
  | cons a as ih =>
    rcases List.pairwise_cons.mp h with ⟨ha, has⟩
    show insertSortedBy le a (sortBy le as) = a :: as
    rw [ih has]
    cases as with
    | nil => rfl
    | cons b bs => simp [insertSortedBy, ha b (List.mem_cons_self b bs)]

theorem tsIdLE_total (a b : Ping) : tsIdLE a b = true ∨ tsIdLE b a = true := by
  simp only [tsIdLE, decide_eq_true_iff]
  omega

theorem tsIdLE_trans (a b c : Ping) (h1 : tsIdLE a b = true)
    (h2 : tsIdLE b c = true) : tsIdLE a c = true := by
  simp only [tsIdLE, decide_eq_true_iff] at h1 h2 ⊢
  omega

theorem idLE_total (a b : Ping) : idLE a b = true ∨ idLE b a = true := by
  simp only [idLE, decide_eq_true_iff]
  omega

theorem idLE_trans (a b c : Ping) (h1 : idLE a b = true)
    (h2 : idLE b c = true) : idLE a c = true := by
  simp only [idLE, decide_eq_true_iff] at h1 h2 ⊢
  omega

theorem mem_chunkStarts (start_dt end_dt : Int) (c : Nat) (s : Int) :
    s ∈ chunkStarts start_dt end_dt c ↔
      ∃ i : Nat, i < numChunks start_dt end_dt c ∧
        s = start_dt + 3600 * c * i := by
  unfold chunkStarts
  constructor
  · intro h
    rcases List.mem_map.mp h with ⟨i, hi, hs⟩
    exact ⟨i, List.mem_range.mp hi, hs.symm⟩
  · rintro ⟨i, hi, rfl⟩
    exact List.mem_map.mpr ⟨i, List.mem_range.mpr hi, rfl⟩

theorem mem_chunkFrame (db : List Ping) (s : Int) (c : Nat) (p : Ping) :
    p ∈ chunkFrame db s c ↔ p ∈ db ∧ inChunk s c p := by
  unfold chunkFrame
  rw [mem_sortBy, List.mem_filter]
  simp [decide_eq_true_iff]

/-- C2: the claim says that on the empty delta sequence (what
`calculate_deltas` returns when no pair qualifies) `summarise_journey_stats`
returns a summary with explicit "no value" markers and must not raise.  The
code does the opposite: `pd.DataFrame([])` has no columns, so the very first
statistic evaluates `route_deltas["speed"]` and raises `KeyError('speed')`.
Evaluated here at a journey of two pings reported at the same instant. -/
theorem summarise_journey_stats_empty_raises :
    calculate_deltas taxicab [sameInstantA, sameInstantB] = [] ∧
    summarise_journey_stats (calculate_deltas taxicab [sameInstantA, sameInstantB]) 1
      = Except.error (PyError.keyError "speed") := by
  have h : calculate_deltas taxicab [sameInstantA, sameInstantB] = [] := by
    norm_num [calculate_deltas, sameInstantA, sameInstantB, mkPing]
  exact ⟨h, by rw [h]; rfl⟩

/-- C3: the claim says `summarise_hour_stats` outputs the journey count plus
correct min/max/mean/median reductions of the journey-level statistics.  In
fact on every frame of journey-summary rows it raises
`KeyError('num_stationary')` — the journey aggregator named that column
`num_points_stationary` — before any statistic is computed (and, as
transcribed in its definition, its `time_total_min_hrs`/`time_total_max_hrs`
entries are computed from `.max()`/`.min()` respectively and several
`*_med` entries from `.mean()`). -/
theorem summarise_hour_stats_keyerror (hour_df : List JRow) :
    summarise_hour_stats hour_df = Except.error (PyError.keyError "num_stationary") := by
  rfl

/-- C8: on every input whose normalized result still contains a ping,
`convert_locations_to_hour_summaries` raises `NameError` — line 220 reads the
undefined name `processed_locations` instead of `processed_locations_df` — so
the ping-to-hour-summary pipeline never returns a summary for non-trivial
input. -/
theorem convert_hour_summaries_nameerror (locations_df : List Ping)
    (_h : 1 ≤ (preprocess_locations locations_df 2).length) :
    convert_locations_to_hour_summaries locations_df
      = Except.error (PyError.nameError "processed_locations") := rfl

/-- Witness for `convert_hour_summaries_nameerror`: a two-ping journey whose
normalized result keeps both pings. -/
theorem convert_hour_summaries_nameerror_witness :
    1 ≤ (preprocess_locations [sameInstantA, sameInstantB] 2).length ∧
    convert_locations_to_hour_summaries [sameInstantA, sameInstantB]
      = Except.error (PyError.nameError "processed_locations") :=
  ⟨by decide, convert_hour_summaries_nameerror [sameInstantA, sameInstantB] (by decide)⟩

theorem elapsed_zero_iff (a b : Ping) :
    ((b.timestamp - a.timestamp : Int) : ℚ) / 3600 = 0 ↔
      b.timestamp = a.timestamp := by
  rw [div_eq_zero_iff]
  constructor
  · intro h
    rcases h with h1 | h2
    · have h3 : (b.timestamp - a.timestamp : Int) = 0 := by exact_mod_cast h1
      omega
    · norm_num at h2
  · intro h
    left
    rw [h]
    norm_num

theorem calculate_deltas_filter_map (gdist : ℚ → ℚ → ℚ → ℚ → ℚ) :
    ∀ l : List Ping,
      calculate_deltas gdist l
        = ((l.zip l.tail).filter
            (fun ab => decide (¬ ab.2.timestamp = ab.1.timestamp))).map
          (fun ab => mkDelta gdist ab.1 ab.2)
  | [] => rfl
  | [a] => rfl
  | a :: b :: bs => by
    have ih := calculate_deltas_filter_map gdist (b :: bs)
    show (if ((b.timestamp - a.timestamp : Int) : ℚ) / 3600 ≠ 0
        then [mkDelta gdist a b] else []) ++ calculate_deltas gdist (b :: bs) = _
    by_cases hts : b.timestamp = a.timestamp
    · have ht : ¬ ((b.timestamp - a.timestamp : Int) : ℚ) / 3600 ≠ 0 :=
        fun hc => hc ((elapsed_zero_iff a b).mpr hts)
      simp only [ht, if_neg, not_false_iff, List.nil_append, ih]
      simp [List.zip_cons_cons, List.filter_cons, hts]
    · have ht : ((b.timestamp - a.timestamp : Int) : ℚ) / 3600 ≠ 0 :=
        fun hc => hts ((elapsed_zero_iff a b).mp hc)
      simp only [ht, if_pos, ne_eq, not_false_iff, List.singleton_append, ih]
      simp [List.zip_cons_cons, List.filter_cons, hts]

theorem length_filter_add_length_filter_not {α : Type} (p : α → Bool)
    (l : List α) :
    (l.filter p).length + (l.filter (fun a => !(p a))).length = l.length := by
  induction l with
  | nil => rfl
  | cons a as ih =>
    by_cases h : p a = true
    · simp [List.filter_cons, h]
      omega
    · have h2 : p a = false := by
        cases hpa : p a
        · rfl
        · exact absurd hpa h
      simp [List.filter_cons, h2]
      omega

/-- C4: for a time-ordered journey of at least two pings, `calculate_deltas`
produces exactly `(ping count − 1) − (zero-duration pairs)` deltas; a
consecutive pair is excluded exactly when its elapsed time is zero (the
filterMap characterisation); and every produced delta satisfies
`speed = dist / time` exactly. -/
theorem calculate_deltas_count_speed (gdist : ℚ → ℚ → ℚ → ℚ → ℚ) (l : List Ping)
    (_hsorted : l.Pairwise (fun a b => a.timestamp ≤ b.timestamp))
    (h2 : 2 ≤ l.length) :
    (calculate_deltas gdist l).length = (l.length - 1) - zeroDurationPairs l
    ∧ calculate_deltas gdist l
        = ((l.zip l.tail).filter
            (fun ab => decide (¬ ab.2.timestamp = ab.1.timestamp))).map
          (fun ab => mkDelta gdist ab.1 ab.2)
    ∧ (∀ d ∈ calculate_deltas gdist l, d.speed = d.dist / d.time) := by
  have hchar := calculate_deltas_filter_map gdist l
  refine ⟨?_, hchar, ?_⟩
  · have hzip : (l.zip l.tail).length = l.length - 1 := by
      rw [List.length_zip, List.length_tail]
      omega
    have hsplit := length_filter_add_length_filter_not
      (fun ab : Ping × Ping => decide (¬ ab.2.timestamp = ab.1.timestamp))
      (l.zip l.tail)
    have hnotnot :
        ((l.zip l.tail).filter
          (fun ab => !(decide (¬ ab.2.timestamp = ab.1.timestamp)))).length
          = zeroDurationPairs l := by
      unfold zeroDurationPairs
      congr 1
      apply List.filter_congr
      intro ab _
      simp [decide_not]
    rw [hchar, List.length_map]
    omega
  · intro d hd
    rw [hchar] at hd
    rcases List.mem_map.mp hd with ⟨ab, _, rfl⟩
    simp [mkDelta]

/-- Witness for `calculate_deltas_count_speed`: three pings of one journey
whose first consecutive pair has zero elapsed time, so exactly one delta is
produced. -/
theorem calculate_deltas_count_speed_witness :
    (threePings.Pairwise (fun a b => a.timestamp ≤ b.timestamp)
      ∧ 2 ≤ threePings.length ∧ zeroDurationPairs threePings = 1)
    ∧ (calculate_deltas taxicab threePings).length
        = (threePings.length - 1) - zeroDurationPairs threePings :=
  ⟨⟨by decide, by decide, by decide⟩,
    (calculate_deltas_count_speed taxicab threePings (by decide) (by decide)).1⟩

/-- C9 (amended): every consecutive pair with strictly negative elapsed time
is included by `calculate_deltas` — only pairs with elapsed time exactly zero
are excluded, and nothing checks temporal order — and its delta has negative
elapsed time; its speed is `dist / elapsed`, which is negative exactly when
the pair's distance is positive, and zero (not negative) when the two
positions coincide. -/
theorem calculate_deltas_negative_elapsed (gdist : ℚ → ℚ → ℚ → ℚ → ℚ)
    (l : List Ping) (a b : Ping) (hmem : (a, b) ∈ l.zip l.tail)
    (hneg : b.timestamp < a.timestamp) :
    mkDelta gdist a b ∈ calculate_deltas gdist l
    ∧ (mkDelta gdist a b).time < 0
    ∧ (0 < gdist a.vehicle_lat a.vehicle_lon b.vehicle_lat b.vehicle_lon →
        (mkDelta gdist a b).speed < 0)
    ∧ (gdist a.vehicle_lat a.vehicle_lon b.vehicle_lat b.vehicle_lon = 0 →
        (mkDelta gdist a b).speed = 0) := by
  have hne : ¬ b.timestamp = a.timestamp := by omega
  have htime : (mkDelta gdist a b).time < 0 := by
    show ((b.timestamp - a.timestamp : Int) : ℚ) / 3600 < 0
    apply div_neg_of_neg_of_pos
    · have hlt : (b.timestamp - a.timestamp : Int) < 0 := by omega
      exact_mod_cast hlt
    · norm_num
  refine ⟨?_, htime, ?_, ?_⟩
  · rw [calculate_deltas_filter_map]
    exact List.mem_map_of_mem _ (List.mem_filter.mpr ⟨hmem, by simp [hne]⟩)
  · intro hpos
    show gdist a.vehicle_lat a.vehicle_lon b.vehicle_lat b.vehicle_lon
        / (((b.timestamp - a.timestamp : Int) : ℚ) / 3600) < 0
    exact div_neg_of_pos_of_neg hpos htime
  · intro h0
    show gdist a.vehicle_lat a.vehicle_lon b.vehicle_lat b.vehicle_lon
        / (((b.timestamp - a.timestamp : Int) : ℚ) / 3600) = 0
    rw [h0]
    exact zero_div _

/-- Witness for `calculate_deltas_negative_elapsed`: a time-reversed pair that
has moved, so the delta's speed is actually negative. -/
theorem calculate_deltas_negative_elapsed_witness :
    ((movedPingA, movedPingB) ∈ [movedPingA, movedPingB].zip [movedPingA, movedPingB].tail
      ∧ movedPingB.timestamp < movedPingA.timestamp
      ∧ 0 < taxicab movedPingA.vehicle_lat movedPingA.vehicle_lon
          movedPingB.vehicle_lat movedPingB.vehicle_lon)
    ∧ mkDelta taxicab movedPingA movedPingB
        ∈ calculate_deltas taxicab [movedPingA, movedPingB]
    ∧ (mkDelta taxicab movedPingA movedPingB).time < 0
    ∧ (mkDelta taxicab movedPingA movedPingB).speed < 0 := by
  have hpos : 0 < taxicab movedPingA.vehicle_lat movedPingA.vehicle_lon
      movedPingB.vehicle_lat movedPingB.vehicle_lon := by
    norm_num [taxicab, movedPingA, movedPingB, mkPing]
  have h := calculate_deltas_negative_elapsed taxicab [movedPingA, movedPingB]
    movedPingA movedPingB (by decide) (by decide)
  exact ⟨⟨by decide, by decide, hpos⟩, h.1, h.2.1, h.2.2.1 hpos⟩

/-- C9 (counterexample to the claim as stated): a consecutive pair with
negative elapsed time standing at one position yields the delta
`(time, speed, dist) = (-1, 0, 0)` — the elapsed time is negative but the
speed is zero, not negative. -/
theorem calculate_deltas_negative_counterexample :
    calculate_deltas taxicab [stillPingA, stillPingB]
      = [{ time := -1, speed := 0, dist := 0 }]
    ∧ ({ time := -1, speed := 0, dist := 0 } : Delta).time < 0
    ∧ ¬ ({ time := -1, speed := 0, dist := 0 } : Delta).speed < 0 := by
  refine ⟨?_, by norm_num, by norm_num⟩
  norm_num [calculate_deltas, mkDelta, stillPingA, stillPingB, mkPing, taxicab]

/-- C5: the hour bucket is the scheduled departure time floored to the hour
(a multiple of one hour, at most the departure time, less than one hour
before it); two pings of one journey (same operator, scheduled departure
time, line and vehicle journey ref) get the same `journey_date_line_ref` and
the same hour bucket, and either both or neither land in any given processing
chunk — regardless of their own report timestamps — and the chunks of one
`process_day` run can select a given ping at most once. -/
theorem journey_single_bucket_chunk (p q : Ping) (start_dt end_dt : Int)
    (c : Nat) (hc : 1 ≤ c)
    (hdep : p.origin_aimed_departure_time = q.origin_aimed_departure_time)
    (hop : p.operator_ref = q.operator_ref) (hline : p.line_ref = q.line_ref)
    (hvj : p.vehicle_journey_ref = q.vehicle_journey_ref) :
    hourBucket p % 3600 = 0
    ∧ hourBucket p ≤ p.origin_aimed_departure_time
    ∧ p.origin_aimed_departure_time < hourBucket p + 3600
    ∧ journey_date_line_ref p = journey_date_line_ref q
    ∧ hourBucket p = hourBucket q
    ∧ (∀ db : List Ping, ∀ s : Int, p ∈ db → q ∈ db →
        (p ∈ chunkFrame db s c ↔ q ∈ chunkFrame db s c))
    ∧ (∀ s1 s2 : Int, s1 ∈ chunkStarts start_dt end_dt c →
        s2 ∈ chunkStarts start_dt end_dt c → inChunk s1 c p → inChunk s2 c p →
        s1 = s2) := by
  have hc' : (1 : Int) ≤ (c : Int) := by exact_mod_cast hc
  have hC : (0 : Int) < 3600 * (c : Int) := by nlinarith
  refine ⟨?_, ?_, ?_, ?_, ?_, ?_, ?_⟩
  · unfold hourBucket floorHour; omega
  · unfold hourBucket floorHour; omega
  · unfold hourBucket floorHour; omega
  · unfold journey_date_line_ref depString; rw [hop, hline, hvj, hdep]
  · unfold hourBucket; rw [hdep]
  · intro db s hp hq
    rw [mem_chunkFrame, mem_chunkFrame]
    unfold inChunk
    rw [hdep]
    simp [hp, hq]
  · intro s1 s2 hs1 hs2 h1 h2
    rcases (mem_chunkStarts start_dt end_dt c s1).mp hs1 with ⟨i, _, rfl⟩
    rcases (mem_chunkStarts start_dt end_dt c s2).mp hs2 with ⟨j, _, rfl⟩
    unfold inChunk at h1 h2
    have e1 : 3600 * (c : Int) * ((i : Int) + 1)
        = 3600 * (c : Int) * i + 3600 * (c : Int) := by ring
    have e2 : 3600 * (c : Int) * ((j : Int) + 1)
        = 3600 * (c : Int) * j + 3600 * (c : Int) := by ring
    have k1 : 3600 * (c : Int) * i < 3600 * (c : Int) * ((j : Int) + 1) := by
      rw [e2]; linarith [h1.1, h2.2]
    have k2 : 3600 * (c : Int) * j < 3600 * (c : Int) * ((i : Int) + 1) := by
      rw [e1]; linarith [h2.1, h1.2]
    have l1 : (i : Int) < (j : Int) + 1 := lt_of_mul_lt_mul_left k1 (le_of_lt hC)
    have l2 : (j : Int) < (i : Int) + 1 := lt_of_mul_lt_mul_left k2 (le_of_lt hC)
    have hij : (i : Int) = (j : Int) := by omega
    rw [hij]

/-- Witness for `journey_single_bucket_chunk`: a journey scheduled at 23:50
(epoch second 85800) whose second ping arrives at 01:30 the next day lands in
the 23:00 bucket (epoch second 82800). -/
theorem journey_single_bucket_chunk_witness :
    (lateJourneyP.origin_aimed_departure_time
        = lateJourneyQ.origin_aimed_departure_time
      ∧ lateJourneyP.timestamp = 85800 ∧ lateJourneyQ.timestamp = 91800
      ∧ hourBucket lateJourneyP = 82800)
    ∧ (journey_date_line_ref lateJourneyP = journey_date_line_ref lateJourneyQ
      ∧ hourBucket lateJourneyP = hourBucket lateJourneyQ) := by
  have h := journey_single_bucket_chunk lateJourneyP lateJourneyQ 0 86400 1
    (by decide) (by decide) (by decide) (by decide) (by decide)
  exact ⟨⟨by decide, by decide, by decide, by decide⟩, h.2.2.2.1, h.2.2.2.2.1⟩

theorem coverage_le (start_dt end_dt : Int) (c : Nat)
    (hs : start_dt ≤ end_dt - 3600 * c) :
    start_dt + 3600 * c * (numChunks start_dt end_dt c : Int) ≤ end_dt := by
  unfold numChunks
  rw [if_pos hs]
  have hr : (0 : Int) ≤ end_dt - 3600 * c - start_dt := by omega
  have hle : (((end_dt - 3600 * c - start_dt).toNat / (3600 * c) : Nat) : Int)
      * ((3600 * c : Nat) : Int)
      ≤ ((end_dt - 3600 * c - start_dt).toNat : Int) := by
    exact_mod_cast Nat.div_mul_le_self (end_dt - 3600 * c - start_dt).toNat (3600 * c)
  have htn : ((end_dt - 3600 * c - start_dt).toNat : Int)
      = end_dt - 3600 * c - start_dt := Int.toNat_of_nonneg hr
  push_cast at hle ⊢
  nlinarith [hle, htn]

/-- C10: `process_day` only generates the whole chunks that fit at or before
`end_dt` minus one chunk, so a ping whose scheduled departure time falls in
the trailing remainder interval (at or after the last generated chunk's end,
before `end_dt`) is selected by no chunk of the run and never fetched. -/
theorem process_day_trailing_remainder (start_dt end_dt : Int) (c : Nat)
    (hc : 1 ≤ c) (p : Ping)
    (hrem : start_dt + 3600 * c * (numChunks start_dt end_dt c : Int)
      ≤ p.origin_aimed_departure_time)
    (hlt : p.origin_aimed_departure_time < end_dt) :
    (∀ s ∈ chunkStarts start_dt end_dt c, s + 3600 * c ≤ end_dt)
    ∧ (∀ s ∈ chunkStarts start_dt end_dt c, ¬ inChunk s c p)
    ∧ (∀ db : List Ping, ∀ s ∈ chunkStarts start_dt end_dt c,
        p ∉ chunkFrame db s c) := by
  have hc' : (1 : Int) ≤ (c : Int) := by exact_mod_cast hc
  have hC : (0 : Int) < 3600 * (c : Int) := by nlinarith
  have key : ∀ s ∈ chunkStarts start_dt end_dt c, ¬ inChunk s c p := by
    intro s hs hin
    rcases (mem_chunkStarts start_dt end_dt c s).mp hs with ⟨i, hi, rfl⟩
    have hi1 : ((i : Int) + 1) ≤ (numChunks start_dt end_dt c : Int) := by
      exact_mod_cast Nat.succ_le_of_lt hi
    have hmul : 3600 * (c : Int) * ((i : Int) + 1)
        ≤ 3600 * (c : Int) * (numChunks start_dt end_dt c : Int) :=
      mul_le_mul_of_nonneg_left hi1 (le_of_lt hC)
    have e1 : 3600 * (c : Int) * ((i : Int) + 1)
        = 3600 * (c : Int) * i + 3600 * (c : Int) := by ring
    rcases hin with ⟨_, hub⟩
    linarith [hrem, hub, hmul, e1.symm.le, e1.le]
  refine ⟨?_, key, ?_⟩
  · intro s hs
    rcases (mem_chunkStarts start_dt end_dt c s).mp hs with ⟨i, hi, rfl⟩
    have hN : 1 ≤ numChunks start_dt end_dt c := Nat.one_le_iff_ne_zero.mpr
      (by intro h0; rw [h0] at hi; exact Nat.not_lt_zero i hi)
    have hsle : start_dt ≤ end_dt - 3600 * c := by
      by_contra hcon
      unfold numChunks at hN
      rw [if_neg hcon] at hN
      exact Nat.not_succ_le_zero 0 hN
    have hcov := coverage_le start_dt end_dt c hsle
    have hi1 : ((i : Int) + 1) ≤ (numChunks start_dt end_dt c : Int) := by
      exact_mod_cast Nat.succ_le_of_lt hi
    have hmul : 3600 * (c : Int) * ((i : Int) + 1)
        ≤ 3600 * (c : Int) * (numChunks start_dt end_dt c : Int) :=
      mul_le_mul_of_nonneg_left hi1 (le_of_lt hC)
    have e1 : 3600 * (c : Int) * ((i : Int) + 1)
        = 3600 * (c : Int) * i + 3600 * (c : Int) := by ring
    linarith [hcov, hmul, e1.le, e1.symm.le]
  · intro db s hs hmem
    exact key s hs ((mem_chunkFrame db s c p).mp hmem).2

/-- Witness for `process_day_trailing_remainder`: a 90-minute span processed
with one-hour chunks generates a single chunk covering the first hour, and a
ping scheduled in the trailing half hour is never fetched. -/
theorem process_day_trailing_remainder_witness :
    (numChunks 0 5400 1 = 1
      ∧ 0 + 3600 * 1 * ((numChunks 0 5400 1 : Nat) : Int)
          ≤ (mkPing 9 4000 4000 0 0 "J7").origin_aimed_departure_time
      ∧ (mkPing 9 4000 4000 0 0 "J7").origin_aimed_departure_time < 5400)
    ∧ (∀ s ∈ chunkStarts 0 5400 1, ¬ inChunk s 1 (mkPing 9 4000 4000 0 0 "J7")) := by
  have h := process_day_trailing_remainder 0 5400 1 (by decide)
    (mkPing 9 4000 4000 0 0 "J7") (by decide) (by decide)
  exact ⟨⟨by decide, by decide, by decide⟩, h.2.1⟩

/-- C7 (counterexample to the claim as stated): with reference date at epoch
midnight 0 and `detailed_days = 7`, the stored row whose hour bucket is 23:00
of the previous day (epoch second -3600) lies squarely inside the claimed
window — the most recent 7 days ending the day before the reference date —
yet the detailed query selects nothing, because its `WHERE` clause keeps only
`hour <= date '(ref - 1 day)'`, i.e. at most the previous day's midnight. -/
theorem daily_summary_window_counterexample :
    specDetailedWindow 0 7 eveRow.hour
    ∧ detailedSelect [eveRow] 0 7 = []
    ∧ (generate_daily_summary [eveRow] 0 7 30).detailed = [] := by
  refine ⟨by decide, by decide, by decide⟩

/-- C7 (amended): the detailed view selects exactly the journey-summary rows
whose hour bucket is at most midnight of the day before the reference date
and strictly after midnight of the day `num_detailed_days - 1` days before
the reference date (so all of the day before the reference date except its
midnight bucket is dropped, and the window starts one day later than the
claim says), grouped by (hour bucket, line ref) with one aggregate row per
group counting its journeys; the summary view selects by the same bounds with
`num_summary_days`. -/
theorem daily_summary_window_spec (table : List JRow) (start_dt : Int)
    (dd sd : Nat) :
    (∀ r : JRow, r ∈ detailedSelect table start_dt dd ↔
      r ∈ table ∧ r.hour ≤ dayFloor (start_dt - 86400)
        ∧ dayFloor (start_dt - 86400 * ((dd : Int) - 1)) < r.hour)
    ∧ (∀ r : JRow, r ∈ summarySelect table start_dt sd ↔
      r ∈ table ∧ r.hour ≤ dayFloor (start_dt - 86400)
        ∧ dayFloor (start_dt - 86400 * ((sd : Int) - 1)) < r.hour)
    ∧ ((generate_daily_summary table start_dt dd sd).detailed.map
        (fun g => (g.groupHour, g.line_ref))
        = groupKeysAux (fun r => (r.hour, r.line_ref)) []
            (detailedSelect table start_dt dd))
    ∧ (∀ g ∈ (generate_daily_summary table start_dt dd sd).detailed,
        g.num_journeys = ((detailedSelect table start_dt dd).filter
          (fun r => decide ((r.hour, r.line_ref)
            = (g.groupHour, g.line_ref)))).length) := by
  refine ⟨?_, ?_, ?_, ?_⟩
  · intro r
    simp [detailedSelect, List.mem_filter, detailedWhere, and_assoc]
  · intro r
    simp [summarySelect, List.mem_filter, summaryWhere, and_assoc]
  · simp only [generate_daily_summary, detailedView, List.map_map]
    have hcomp : ((fun g : ReportRow => (g.groupHour, g.line_ref)) ∘
        (fun k : Int × String => mkReportRow
          ((detailedSelect table start_dt dd).filter
            (fun r => decide ((r.hour, r.line_ref) = k))) k.2 k.1))
        = fun k : Int × String => k := by
      funext k
      simp [mkReportRow]
    rw [hcomp]
    exact List.map_id _
  · intro g hg
    simp only [generate_daily_summary, detailedView, List.mem_map] at hg
    rcases hg with ⟨k, _, rfl⟩
    simp [mkReportRow]

theorem keepFirstDedup_spec (l : List Ping) :
    ∀ seen : List (Int × String × String × ℚ × ℚ × ℚ),
      (keepFirstDedup seen l).Pairwise (fun p q => dedupKey p ≠ dedupKey q)
      ∧ ∀ p ∈ keepFirstDedup seen l, dedupKey p ∉ seen := by
  induction l with
  | nil =>
    intro seen
    exact ⟨List.Pairwise.nil, by intro p hp; cases hp⟩
  | cons a as ih =>
    intro seen
    by_cases h : dedupKey a ∈ seen
    · simp only [keepFirstDedup, h, if_pos]
      exact ih seen
    · simp only [keepFirstDedup, h, if_neg, not_false_iff]
      rcases ih (dedupKey a :: seen) with ⟨hpw, hseen⟩
      constructor
      · refine List.pairwise_cons.mpr ⟨?_, hpw⟩
        intro p hp heq
        exact (hseen p hp) (heq ▸ List.mem_cons_self (dedupKey a) seen)
      · intro p hp
        rcases List.mem_cons.mp hp with rfl | hp2
        · exact h
        · exact fun hmem => hseen p hp2 (List.mem_cons_of_mem _ hmem)

theorem keepFirstDedup_eq_self :
    ∀ (l : List Ping) (seen : List (Int × String × String × ℚ × ℚ × ℚ)),
      l.Pairwise (fun p q => dedupKey p ≠ dedupKey q) →
      (∀ p ∈ l, dedupKey p ∉ seen) → keepFirstDedup seen l = l := by
  intro l
  induction l with
  | nil => intro seen _ _; rfl
  | cons a as ih =>
    intro seen hpw hseen
    rcases List.pairwise_cons.mp hpw with ⟨ha, has⟩
    have hnot : dedupKey a ∉ seen := hseen a (List.mem_cons_self a as)
    simp only [keepFirstDedup, hnot, if_neg, not_false_iff]
    congr 1
    refine ih (dedupKey a :: seen) has ?_
    intro p hp
    intro hmem
    rcases List.mem_cons.mp hmem with heq | hmem2
    · exact ha p hp heq.symm
    · exact hseen p (List.mem_cons_of_mem a hp) hmem2

theorem countKey_perm (k : String) (l1 l2 : List Ping) (h : l1.Perm l2) :
    countKey k l1 = countKey k l2 := by
  unfold countKey
  exact (h.filter (fun p => decide (journey_date_line_ref p = k))).length_eq

theorem countKey_filter_ge (dd : List Ping) (t : Nat) (k : String)
    (h : t ≤ countKey k dd) :
    countKey k (dd.filter
      (fun p => decide (t ≤ countKey (journey_date_line_ref p) dd)))
      = countKey k dd := by
  unfold countKey
  rw [List.filter_filter]
  congr 1
  refine List.filter_congr ?_
  intro p _
  by_cases hk : journey_date_line_ref p = k
  · have hp : decide (t ≤ (List.filter
        (fun q => decide (journey_date_line_ref q = journey_date_line_ref p))
          dd).length) = true := by
      rw [hk]
      exact decide_eq_true h
    rw [hp, Bool.and_true]
  · rw [decide_eq_false hk, Bool.false_and]

/-- C6: applying `preprocess_locations` (default threshold 2) to its own
output returns that output unchanged: deduplication, key derivation,
minimum-ping filtering and sorting are jointly idempotent.  The ingestion-id
hypothesis is the data model's primary-key uniqueness; it pins down the sort
order (`pandas.sort_values` leaves the order of tied sort keys unspecified,
and ids are the tie-break). -/
theorem preprocess_locations_idempotent (l : List Ping)
    (_hids : (l.map Ping.id).Nodup) :
    preprocess_locations (preprocess_locations l 2) 2
      = preprocess_locations l 2 := by
  have hsymm : ∀ {x y : Ping},
      (fun p q : Ping => dedupKey p ≠ dedupKey q) x y →
      (fun p q : Ping => dedupKey p ≠ dedupKey q) y x :=
    fun h e => h e.symm
  have hpw_dd : (keepFirstDedup [] l).Pairwise
      (fun p q => dedupKey p ≠ dedupKey q) := (keepFirstDedup_spec l []).1
  have hpw_kept : ((keepFirstDedup [] l).filter
      (fun p => decide (2 ≤ countKey (journey_date_line_ref p)
        (keepFirstDedup [] l)))).Pairwise
      (fun p q => dedupKey p ≠ dedupKey q) := hpw_dd.filter _
  have hperm : (preprocess_locations l 2).Perm
      ((keepFirstDedup [] l).filter
        (fun p => decide (2 ≤ countKey (journey_date_line_ref p)
          (keepFirstDedup [] l)))) := perm_sortBy tsIdLE _
  have hpw_out : (preprocess_locations l 2).Pairwise
      (fun p q => dedupKey p ≠ dedupKey q) :=
    (hperm.pairwise_iff hsymm).mpr hpw_kept
  have hdd2 : keepFirstDedup [] (preprocess_locations l 2)
      = preprocess_locations l 2 :=
    keepFirstDedup_eq_self (preprocess_locations l 2) [] hpw_out
      (fun p _ => List.not_mem_nil (dedupKey p) )
  have hcnt : ∀ p ∈ preprocess_locations l 2,
      2 ≤ countKey (journey_date_line_ref p) (preprocess_locations l 2) := by
    intro p hp
    have hpk : p ∈ (keepFirstDedup [] l).filter
        (fun q => decide (2 ≤ countKey (journey_date_line_ref q)
          (keepFirstDedup [] l))) := hperm.mem_iff.mp hp
    rcases List.mem_filter.mp hpk with ⟨_, hpred⟩
    have h2 : 2 ≤ countKey (journey_date_line_ref p) (keepFirstDedup [] l) :=
      of_decide_eq_true hpred
    have e1 : countKey (journey_date_line_ref p) (preprocess_locations l 2)
        = countKey (journey_date_line_ref p)
          ((keepFirstDedup [] l).filter
            (fun q => decide (2 ≤ countKey (journey_date_line_ref q)
              (keepFirstDedup [] l)))) :=
      countKey_perm _ _ _ hperm
    rw [e1, countKey_filter_ge (keepFirstDedup [] l) 2 _ h2]
    exact h2
  have hkept2 : (preprocess_locations l 2).filter
      (fun p => decide (2 ≤ countKey (journey_date_line_ref p)
        (preprocess_locations l 2))) = preprocess_locations l 2 := by
    refine List.filter_eq_self.mpr ?_
    intro p hp
    exact decide_eq_true (hcnt p hp)
  have hsorted : (preprocess_locations l 2).Pairwise
      (fun a b => tsIdLE a b = true) :=
    pairwise_sortBy tsIdLE tsIdLE_total tsIdLE_trans _
  show sortBy tsIdLE ((keepFirstDedup [] (preprocess_locations l 2)).filter
      (fun p => decide (2 ≤ countKey (journey_date_line_ref p)
        (keepFirstDedup [] (preprocess_locations l 2)))))
      = preprocess_locations l 2
  rw [hdd2, hkept2]
  exact sortBy_eq_self tsIdLE (preprocess_locations l 2) hsorted

/-- Witness for `preprocess_locations_idempotent`: four stored pings with
distinct ingestion ids. -/
theorem preprocess_locations_idempotent_witness :
    (goodDb.map Ping.id).Nodup
    ∧ preprocess_locations (preprocess_locations goodDb 2) 2
        = preprocess_locations goodDb 2 :=
  ⟨by decide, preprocess_locations_idempotent goodDb (by decide)⟩

/-! Facts about the sequential `Except` mapping. -/

theorem exceptMapList_nil {α β : Type} (f : α → Except PyError β) :
    exceptMapList f [] = Except.ok [] := rfl

theorem exceptMapList_cons {α β : Type} (f : α → Except PyError β) (a : α)
    (l : List α) :
    exceptMapList f (a :: l)
      = match f a with
        | Except.error e => Except.error e
        | Except.ok b => (exceptMapList f l).map (fun bs => b :: bs) := rfl

theorem exceptMapList_congr {α β : Type} (f g : α → Except PyError β)
    (l : List α) (h : ∀ a ∈ l, f a = g a) :
    exceptMapList f l = exceptMapList g l := by
  induction l with
  | nil => rfl
  | cons a as ih =>
    rw [exceptMapList_cons, exceptMapList_cons, h a (List.mem_cons_self a as),
      ih (fun x hx => h x (List.mem_cons_of_mem a hx))]

theorem exceptMapList_append {α β : Type} (f : α → Except PyError β)
    (xs ys : List α) :
    exceptMapList f (xs ++ ys)
      = match exceptMapList f xs with
        | Except.error e => Except.error e
        | Except.ok bs => (exceptMapList f ys).map (fun cs => bs ++ cs) := by
  induction xs with
  | nil =>
    rw [List.nil_append, exceptMapList_nil]
    cases hys : exceptMapList f ys <;> simp [Except.map]
  | cons a as ih =>
    rw [List.cons_append, exceptMapList_cons, exceptMapList_cons, ih]
    cases hfa : f a with
    | error e => rfl
    | ok b =>
      cases hxs : exceptMapList f as with
      | error e => rfl
      | ok bs =>
        cases hys : exceptMapList f ys with
        | error e => rfl
        | ok cs => simp [Except.map]

theorem exceptMapList_error_mem {α β : Type} (f : α → Except PyError β)
    (l : List α) (e : PyError) (h : exceptMapList f l = Except.error e) :
    ∃ a ∈ l, f a = Except.error e := by
  induction l with
  | nil => rw [exceptMapList_nil] at h; cases h
  | cons a as ih =>
    rw [exceptMapList_cons] at h
    cases hfa : f a with
    | error e1 =>
      rw [hfa] at h
      cases h
      exact ⟨a, List.mem_cons_self a as, hfa⟩
    | ok b =>
      rw [hfa] at h
      cases hrest : exceptMapList f as with
      | error e1 =>
        rw [hrest] at h
        cases h
        rcases ih hrest with ⟨x, hx, hfx⟩
        exact ⟨x, List.mem_cons_of_mem a hx, hfx⟩
      | ok bs =>
        rw [hrest] at h
        cases h

theorem exceptMapList_ok_forall {α β : Type} (f : α → Except PyError β)
    (l : List α) (v : List β) (h : exceptMapList f l = Except.ok v) :
    ∀ a ∈ l, ∃ b, f a = Except.ok b := by
  induction l generalizing v with
  | nil => intro a ha; cases ha
  | cons a as ih =>
    rw [exceptMapList_cons] at h
    cases hfa : f a with
    | error e1 => rw [hfa] at h; cases h
    | ok b =>
      rw [hfa] at h
      cases hrest : exceptMapList f as with
      | error e1 => rw [hrest] at h; cases h
      | ok bs =>
        intro x hx
        rcases List.mem_cons.mp hx with rfl | hx2
        · exact ⟨b, hfa⟩
        · exact ih bs hrest x hx2

theorem exceptMapList_ok_of_forall {α β : Type} (f : α → Except PyError β)
    (l : List α) (h : ∀ a ∈ l, ∃ b, f a = Except.ok b) :
    ∃ v, exceptMapList f l = Except.ok v := by
  induction l with
  | nil => exact ⟨[], rfl⟩
  | cons a as ih =>
    rcases h a (List.mem_cons_self a as) with ⟨b, hb⟩
    rcases ih (fun x hx => h x (List.mem_cons_of_mem a hx)) with ⟨v, hv⟩
    refine ⟨b :: v, ?_⟩
    rw [exceptMapList_cons, hb, hv]
    rfl

theorem exceptMapList_perm_ok {α β : Type} (f : α → Except PyError β)
    {l1 l2 : List α} (hperm : l1.Perm l2) :
    ∀ {v1 v2 : List β}, exceptMapList f l1 = Except.ok v1 →
      exceptMapList f l2 = Except.ok v2 → v1.Perm v2 := by
  induction hperm with
  | nil =>
    intro v1 v2 h1 h2
    rw [exceptMapList_nil] at h1 h2
    cases h1; cases h2
    exact List.Perm.refl []
  | cons x hrest ih =>
    intro v1 v2 h1 h2
    rw [exceptMapList_cons] at h1 h2
    cases hfx : f x with
    | error e => rw [hfx] at h1; cases h1
    | ok b =>
      rw [hfx] at h1 h2
      cases hr1 : exceptMapList f _ with
      | error e => rw [hr1] at h1; cases h1
      | ok w1 =>
        rw [hr1] at h1
        cases hr2 : exceptMapList f _ with
        | error e => rw [hr2] at h2; cases h2
        | ok w2 =>
          rw [hr2] at h2
          cases h1; cases h2
          exact (ih hr1 hr2).cons b
  | swap x y l =>
    intro v1 v2 h1 h2
    rw [exceptMapList_cons, exceptMapList_cons] at h1 h2
    cases hfy : f y with
    | error e =>
      rw [hfy] at h1 h2
      cases hfx : f x with
      | error e2 =>
        rw [hfx] at h2
        cases h2
      | ok bx =>
        rw [hfx] at h2
        cases hl2 : exceptMapList f l with
        | error e2 =>
          rw [hl2] at h2
          cases h2
        | ok w =>
          rw [hl2] at h2
          cases h1
    | ok biy =>
      rw [hfy] at h1 h2
      cases hfx : f x with
      | error e =>
        rw [hfx] at h1 h2
        cases hl2 : exceptMapList f l with
        | error e2 => rw [hl2] at h1; cases h1
        | ok w => rw [hl2] at h1; cases h1
      | ok bix =>
        rw [hfx] at h1 h2
        cases hl : exceptMapList f l with
        | error e =>
          rw [hl] at h1
          cases h1
        | ok w =>
          rw [hl] at h1 h2
          cases h1; cases h2
          exact List.Perm.swap bix biy w
  | trans p1 p2 ih1 ih2 =>
    intro v1 v2 h1 h2
    rcases exceptMapList_ok_of_forall f _
      (fun a ha => exceptMapList_ok_forall f _ v1 h1 a (p1.mem_iff.mpr ha))
      with ⟨w, hw⟩
    exact (ih1 h1 hw).trans (ih2 hw h2)

theorem exceptMapList_match_of_perm (f : String → Except PyError JRow)
    (e0 : PyError) (l1 l2 : List String) (hperm : l1.Perm l2)
    (herr : ∀ kstr ∈ l1, ∀ e, f kstr = Except.error e → e = e0) :
    resultsMatch (exceptMapList f l1) (exceptMapList f l2) := by
  cases h1 : exceptMapList f l1 with
  | error e1 =>
    cases h2 : exceptMapList f l2 with
    | error e2 =>
      show e1 = e2
      rcases exceptMapList_error_mem f l1 e1 h1 with ⟨a1, ha1, hfa1⟩
      rcases exceptMapList_error_mem f l2 e2 h2 with ⟨a2, ha2, hfa2⟩
      rw [herr a1 ha1 e1 hfa1, herr a2 (hperm.mem_iff.mpr ha2) e2 hfa2]
    | ok v2 =>
      exfalso
      have hall := exceptMapList_ok_forall f l2 v2 h2
      rcases exceptMapList_ok_of_forall f l1
        (fun a ha => hall a (hperm.mem_iff.mp ha)) with ⟨v, hv⟩
      rw [h1] at hv
      cases hv
  | ok v1 =>
    cases h2 : exceptMapList f l2 with
    | error e2 =>
      exfalso
      have hall := exceptMapList_ok_forall f l1 v1 h1
      rcases exceptMapList_ok_of_forall f l2
        (fun a ha => hall a (hperm.mem_iff.mpr ha)) with ⟨v, hv⟩
      rw [h2] at hv
      cases hv
    | ok v2 =>
      show v1.Perm v2
      exact exceptMapList_perm_ok f hperm h1 h2

theorem summarise_journey_error_speed (gdist : ℚ → ℚ → ℚ → ℚ → ℚ)
    (g : List Ping) (hne : g ≠ []) (e : PyError)
    (h : summarise_journey gdist g = Except.error e) :
    e = PyError.keyError "speed" := by
  cases g with
  | nil => exact absurd rfl hne
  | cons p rest =>
    unfold summarise_journey at h
    unfold summarise_journey_stats at h
    by_cases hcol : "speed" ∈ deltaColumns (calculate_deltas gdist (p :: rest))
    · rw [if_pos hcol] at h
      cases h
    · rw [if_neg hcol] at h
      cases h
      rfl

theorem firstOccKeysAux_spec (l : List Ping) :
    ∀ seen : List String,
      (firstOccKeysAux seen l).Nodup
      ∧ ∀ kstr : String, kstr ∈ firstOccKeysAux seen l ↔
          (kstr ∉ seen ∧ ∃ p ∈ l, journey_date_line_ref p = kstr) := by
  induction l with
  | nil =>
    intro seen
    refine ⟨List.nodup_nil, ?_⟩
    intro kstr
    simp [firstOccKeysAux]
  | cons a as ih =>
    intro seen
    have hunfold : firstOccKeysAux seen (a :: as)
        = if journey_date_line_ref a ∈ seen then firstOccKeysAux seen as
          else journey_date_line_ref a
            :: firstOccKeysAux (journey_date_line_ref a :: seen) as := rfl
    by_cases h : journey_date_line_ref a ∈ seen
    · rw [hunfold, if_pos h]
      rcases ih seen with ⟨hnd, hmem⟩
      refine ⟨hnd, ?_⟩
      intro kstr
      rw [hmem kstr]
      constructor
      · rintro ⟨hns, p, hp, rfl⟩
        exact ⟨hns, p, List.mem_cons_of_mem a hp, rfl⟩
      · rintro ⟨hns, p, hp, rfl⟩
        rcases List.mem_cons.mp hp with rfl | hp2
        · exact absurd h hns
        · exact ⟨hns, p, hp2, rfl⟩
    · rw [hunfold, if_neg h]
      rcases ih (journey_date_line_ref a :: seen) with ⟨hnd, hmem⟩
      constructor
      · refine List.nodup_cons.mpr ⟨?_, hnd⟩
        intro hmem2
        exact ((hmem (journey_date_line_ref a)).mp hmem2).1
          (List.mem_cons_self _ _)
      · intro kstr
        constructor
        · intro hk
          rcases List.mem_cons.mp hk with rfl | hk2
          · exact ⟨h, a, List.mem_cons_self a as, rfl⟩
          · rcases (hmem kstr).mp hk2 with ⟨hns, p, hp, rfl⟩
            exact ⟨fun hs => hns (List.mem_cons_of_mem _ hs), p,
              List.mem_cons_of_mem a hp, rfl⟩
        · rintro ⟨hns, p, hp, rfl⟩
          rcases List.mem_cons.mp hp with rfl | hp2
          · exact List.mem_cons_self _ _
          · by_cases heq : journey_date_line_ref p = journey_date_line_ref a
            · rw [heq]
              exact List.mem_cons_self _ _
            · refine List.mem_cons_of_mem _ ((hmem _).mpr ⟨?_, p, hp2, rfl⟩)
              intro hmem3
              rcases List.mem_cons.mp hmem3 with heq2 | hs
              · exact heq heq2
              · exact hns hs

instance : IsAntisymm Ping tsIdLT := by
  constructor
  intro a b h1 h2
  exfalso
  unfold tsIdLT at h1 h2
  omega

theorem pairwise_tsIdLT_of_sorted (l : List Ping)
    (hs : l.Pairwise (fun a b => tsIdLE a b = true))
    (hn : (l.map Ping.id).Nodup) : l.Pairwise tsIdLT := by
  have hne : l.Pairwise (fun a b => a.id ≠ b.id) := List.pairwise_map.mp hn
  refine (hs.and hne).imp ?_
  intro a b hab
  rcases hab with ⟨h1, h2⟩
  have h1p : a.timestamp < b.timestamp ∨
      (a.timestamp = b.timestamp ∧ a.id ≤ b.id) := of_decide_eq_true h1
  unfold tsIdLT
  omega

theorem pairwise_idLT_of_sorted (l : List Ping)
    (hs : l.Pairwise (fun a b => idLE a b = true))
    (hn : (l.map Ping.id).Nodup) : l.Pairwise idLT := by
  have hne : l.Pairwise (fun a b => a.id ≠ b.id) := List.pairwise_map.mp hn
  refine (hs.and hne).imp ?_
  intro a b hab
  rcases hab with ⟨h1, h2⟩
  have h1p : a.id ≤ b.id := of_decide_eq_true h1
  unfold idLT
  omega

theorem eq_of_perm_sorted_tsId (l1 l2 : List Ping) (hp : l1.Perm l2)
    (hs1 : l1.Pairwise (fun a b => tsIdLE a b = true))
    (hs2 : l2.Pairwise (fun a b => tsIdLE a b = true))
    (hn : (l1.map Ping.id).Nodup) : l1 = l2 := by
  have hn2 : (l2.map Ping.id).Nodup := (hp.map Ping.id).nodup_iff.mp hn
  exact List.eq_of_perm_of_sorted hp
    (pairwise_tsIdLT_of_sorted l1 hs1 hn)
    (pairwise_tsIdLT_of_sorted l2 hs2 hn2)

theorem keepFirstDedup_sorted (l : List Ping) (hpw : l.Pairwise idLT) :
    ∀ seen : List (Int × String × String × ℚ × ℚ × ℚ),
      keepFirstDedup seen l
        = l.filter (fun p => decide (dedupKey p ∉ seen
            ∧ ∀ q ∈ l, dedupKey q = dedupKey p → ¬ q.id < p.id)) := by
  induction l with
  | nil => intro seen; rfl
  | cons a as ih =>
    intro seen
    rcases List.pairwise_cons.mp hpw with ⟨ha, has⟩
    have hunfold : keepFirstDedup seen (a :: as)
        = if dedupKey a ∈ seen then keepFirstDedup seen as
          else a :: keepFirstDedup (dedupKey a :: seen) as := rfl
    by_cases h : dedupKey a ∈ seen
    · rw [hunfold, if_pos h, ih has seen]
      have hpa : decide (dedupKey a ∉ seen
          ∧ ∀ q ∈ a :: as, dedupKey q = dedupKey a → ¬ q.id < a.id) = false := by
        apply decide_eq_false
        intro hcon
        exact hcon.1 h
      rw [List.filter_cons, hpa]
      simp only [Bool.false_eq_true, if_neg, not_false_iff]
      refine List.filter_congr ?_
      intro p hp
      apply decide_eq_decide.mpr
      constructor
      · rintro ⟨h1, h2⟩
        refine ⟨h1, List.forall_mem_cons.mpr ⟨?_, h2⟩⟩
        intro heq
        exact absurd (heq ▸ h) h1
      · rintro ⟨h1, h2⟩
        exact ⟨h1, (List.forall_mem_cons.mp h2).2⟩
    · rw [hunfold, if_neg h, ih has (dedupKey a :: seen)]
      have hpa : decide (dedupKey a ∉ seen
          ∧ ∀ q ∈ a :: as, dedupKey q = dedupKey a → ¬ q.id < a.id) = true := by
        apply decide_eq_true
        refine ⟨h, List.forall_mem_cons.mpr ⟨fun _ => lt_irrefl a.id, ?_⟩⟩
        intro q hq _
        have := ha q hq
        unfold idLT at this
        omega
      rw [List.filter_cons, hpa]
      simp only [if_pos]
      congr 1
      refine List.filter_congr ?_
      intro p hp
      apply decide_eq_decide.mpr
      have haid : a.id < p.id := ha p hp
      constructor
      · rintro ⟨h1, h2⟩
        have h1a : dedupKey p ≠ dedupKey a := fun heq =>
          h1 (heq ▸ List.mem_cons_self (dedupKey a) seen)
        have h1b : dedupKey p ∉ seen := fun hs =>
          h1 (List.mem_cons_of_mem _ hs)
        refine ⟨h1b, List.forall_mem_cons.mpr ⟨?_, h2⟩⟩
        intro heq
        exact absurd heq.symm h1a
      · rintro ⟨h1, h2⟩
        rcases List.forall_mem_cons.mp h2 with ⟨h2a, h2b⟩
        have h1a : dedupKey p ≠ dedupKey a := by
          intro heq
          exact h2a heq.symm haid
        refine ⟨?_, h2b⟩
        intro hmem
        rcases List.mem_cons.mp hmem with heq | hs
        · exact h1a heq
        · exact h1 hs

/-! Per-chunk analysis: under primary-key ids and departure-time-determined
duplicate and journey keys, each chunk of a `process_day` run computes a
chunk-independent function of the stored table. -/

theorem chunkFrame_perm (db : List Ping) (s : Int) (c : Nat) :
    (chunkFrame db s c).Perm
      (db.filter (fun p => decide (inChunk s c p))) :=
  perm_sortBy idLE _

theorem chunkFrame_nodup_ids (db : List Ping) (s : Int) (c : Nat)
    (hids : (db.map Ping.id).Nodup) :
    ((chunkFrame db s c).map Ping.id).Nodup := by
  have hsub : ((db.filter (fun p => decide (inChunk s c p))).map Ping.id).Sublist
      (db.map Ping.id) := (List.filter_sublist db).map Ping.id
  exact (((chunkFrame_perm db s c).map Ping.id).nodup_iff).mpr
    (hsub.nodup hids)

theorem chunkFrame_sorted (db : List Ping) (s : Int) (c : Nat) :
    (chunkFrame db s c).Pairwise (fun a b => idLE a b = true) :=
  pairwise_sortBy idLE idLE_total idLE_trans _

theorem chunkFrame_dedup (db : List Ping)
    (hids : (db.map Ping.id).Nodup)
    (hdd : ∀ p ∈ db, ∀ q ∈ db, dedupKey p = dedupKey q →
      p.origin_aimed_departure_time = q.origin_aimed_departure_time)
    (s : Int) (c : Nat) :
    keepFirstDedup [] (chunkFrame db s c)
      = (chunkFrame db s c).filter (fun p => decide (survivor db p)) := by
  have hstrict : (chunkFrame db s c).Pairwise idLT :=
    pairwise_idLT_of_sorted _ (chunkFrame_sorted db s c)
      (chunkFrame_nodup_ids db s c hids)
  rw [keepFirstDedup_sorted _ hstrict []]
  refine List.filter_congr ?_
  intro p hp
  apply decide_eq_decide.mpr
  rcases (mem_chunkFrame db s c p).mp hp with ⟨hpdb, hpin⟩
  constructor
  · rintro ⟨_, h2⟩
    intro q hq heq hlt
    have hdep := hdd q hq p hpdb heq
    have hqin : inChunk s c q := by
      unfold inChunk at hpin ⊢
      omega
    exact h2 q ((mem_chunkFrame db s c q).mpr ⟨hq, hqin⟩) heq hlt
  · intro hsv
    refine ⟨List.not_mem_nil _, ?_⟩
    intro q hqF heq
    exact hsv q ((mem_chunkFrame db s c q).mp hqF).1 heq

theorem chunkFrame_countKey (db : List Ping)
    (hids : (db.map Ping.id).Nodup)
    (hdd : ∀ p ∈ db, ∀ q ∈ db, dedupKey p = dedupKey q →
      p.origin_aimed_departure_time = q.origin_aimed_departure_time)
    (hkey : ∀ p ∈ db, ∀ q ∈ db, journey_date_line_ref p = journey_date_line_ref q →
      p.origin_aimed_departure_time = q.origin_aimed_departure_time)
    (s : Int) (c : Nat) (kstr : String) (p0 : Ping) (hp0 : p0 ∈ db)
    (hk0 : journey_date_line_ref p0 = kstr) (hin0 : inChunk s c p0) :
    countKey kstr (keepFirstDedup [] (chunkFrame db s c))
      = survCount db kstr := by
  rw [chunkFrame_dedup db hids hdd s c]
  show ((((chunkFrame db s c).filter (fun p => decide (survivor db p))).filter
    (fun p => decide (journey_date_line_ref p = kstr))).length) = _
  rw [List.filter_filter]
  have hperm := (chunkFrame_perm db s c).filter
    (fun p => decide (journey_date_line_ref p = kstr) && decide (survivor db p))
  rw [hperm.length_eq, List.filter_filter]
  unfold survCount
  congr 1
  refine List.filter_congr ?_
  intro a ha
  cases hjr : decide (journey_date_line_ref a = kstr) with
  | false => simp
  | true =>
    have hkeq : journey_date_line_ref a = kstr := of_decide_eq_true hjr
    have hdep : a.origin_aimed_departure_time
        = p0.origin_aimed_departure_time :=
      hkey a ha p0 hp0 (by rw [hkeq, hk0])
    have hain : inChunk s c a := by
      unfold inChunk at hin0 ⊢
      omega
    have hW : decide (inChunk s c a) = true := decide_eq_true hain
    cases hsv : decide (survivor db a) <;> simp [hW]

theorem preprocess_locations_def (l : List Ping) (t : Nat) :
    preprocess_locations l t
      = sortBy tsIdLE ((keepFirstDedup [] l).filter
          (fun p => decide (t ≤ countKey (journey_date_line_ref p)
            (keepFirstDedup [] l)))) := rfl

theorem processed_mem (db : List Ping)
    (hids : (db.map Ping.id).Nodup)
    (hdd : ∀ p ∈ db, ∀ q ∈ db, dedupKey p = dedupKey q →
      p.origin_aimed_departure_time = q.origin_aimed_departure_time)
    (hkey : ∀ p ∈ db, ∀ q ∈ db, journey_date_line_ref p = journey_date_line_ref q →
      p.origin_aimed_departure_time = q.origin_aimed_departure_time)
    (s : Int) (c : Nat) (p : Ping) :
    p ∈ preprocess_locations (chunkFrame db s c) 2 ↔
      p ∈ db ∧ inChunk s c p ∧ survivor db p
        ∧ 2 ≤ survCount db (journey_date_line_ref p) := by
  rw [preprocess_locations_def, mem_sortBy, List.mem_filter,
    chunkFrame_dedup db hids hdd s c, List.mem_filter, mem_chunkFrame]
  have hceq : ∀ hpdb : p ∈ db, ∀ hpin : inChunk s c p,
      countKey (journey_date_line_ref p)
        ((chunkFrame db s c).filter (fun q => decide (survivor db q)))
        = survCount db (journey_date_line_ref p) := by
    intro hpdb hpin
    rw [← chunkFrame_dedup db hids hdd s c]
    exact chunkFrame_countKey db hids hdd hkey s c
      (journey_date_line_ref p) p hpdb rfl hpin
  constructor
  · rintro ⟨⟨⟨hpdb, hpin⟩, hsv⟩, hcnt⟩
    have hsv2 : survivor db p := of_decide_eq_true hsv
    have hcnt2 := of_decide_eq_true hcnt
    rw [hceq hpdb hpin] at hcnt2
    exact ⟨hpdb, hpin, hsv2, hcnt2⟩
  · rintro ⟨hpdb, hpin, hsv, hcnt⟩
    refine ⟨⟨⟨hpdb, hpin⟩, decide_eq_true hsv⟩, ?_⟩
    apply decide_eq_true
    rw [hceq hpdb hpin]
    exact hcnt

theorem chunkKeys_nodup (db : List Ping) (s : Int) (c : Nat) :
    (chunkKeys db s c).Nodup :=
  (firstOccKeysAux_spec (preprocess_locations (chunkFrame db s c) 2) []).1

theorem chunkKeys_mem (db : List Ping)
    (hids : (db.map Ping.id).Nodup)
    (hdd : ∀ p ∈ db, ∀ q ∈ db, dedupKey p = dedupKey q →
      p.origin_aimed_departure_time = q.origin_aimed_departure_time)
    (hkey : ∀ p ∈ db, ∀ q ∈ db, journey_date_line_ref p = journey_date_line_ref q →
      p.origin_aimed_departure_time = q.origin_aimed_departure_time)
    (s : Int) (c : Nat) (kstr : String) :
    kstr ∈ chunkKeys db s c ↔ qualKeyIn db s (s + 3600 * c) kstr := by
  unfold chunkKeys
  rw [(firstOccKeysAux_spec (preprocess_locations (chunkFrame db s c) 2) []).2 kstr]
  unfold qualKeyIn
  constructor
  · rintro ⟨_, p, hp, rfl⟩
    rcases (processed_mem db hids hdd hkey s c p).mp hp with ⟨hpdb, hpin, hsv, hcnt⟩
    exact ⟨p, hpdb, rfl, hsv, hcnt, hpin.1, hpin.2⟩
  · rintro ⟨p, hpdb, rfl, hsv, hcnt, hlo, hhi⟩
    refine ⟨List.not_mem_nil _, p, ?_, rfl⟩
    exact (processed_mem db hids hdd hkey s c p).mpr ⟨hpdb, ⟨hlo, hhi⟩, hsv, hcnt⟩

theorem keepFirstDedup_sublist :
    ∀ (l : List Ping) (seen : List (Int × String × String × ℚ × ℚ × ℚ)),
      (keepFirstDedup seen l).Sublist l := by
  intro l
  induction l with
  | nil => intro seen; exact List.Sublist.refl []
  | cons a as ih =>
    intro seen
    by_cases h : dedupKey a ∈ seen
    · show (if dedupKey a ∈ seen then keepFirstDedup seen as
        else a :: keepFirstDedup (dedupKey a :: seen) as).Sublist (a :: as)
      rw [if_pos h]
      exact (ih seen).cons a
    · show (if dedupKey a ∈ seen then keepFirstDedup seen as
        else a :: keepFirstDedup (dedupKey a :: seen) as).Sublist (a :: as)
      rw [if_neg h]
      exact (ih (dedupKey a :: seen)).cons₂ a

theorem processed_nodup_ids (db : List Ping) (hids : (db.map Ping.id).Nodup)
    (s : Int) (c : Nat) :
    ((preprocess_locations (chunkFrame db s c) 2).map Ping.id).Nodup := by
  rw [preprocess_locations_def]
  refine ((perm_sortBy tsIdLE _).map Ping.id).nodup_iff.mpr ?_
  have hsub : ((keepFirstDedup [] (chunkFrame db s c)).filter
      (fun p => decide (2 ≤ countKey (journey_date_line_ref p)
        (keepFirstDedup [] (chunkFrame db s c))))).Sublist (chunkFrame db s c) :=
    (List.filter_sublist _).trans (keepFirstDedup_sublist (chunkFrame db s c) [])
  exact List.Nodup.sublist (hsub.map Ping.id) (chunkFrame_nodup_ids db s c hids)

theorem groupRows_sorted (db : List Ping) (kstr : String) :
    (groupRows db kstr).Pairwise (fun a b => tsIdLE a b = true) :=
  pairwise_sortBy tsIdLE tsIdLE_total tsIdLE_trans _

theorem processed_group (db : List Ping)
    (hids : (db.map Ping.id).Nodup)
    (hdd : ∀ p ∈ db, ∀ q ∈ db, dedupKey p = dedupKey q →
      p.origin_aimed_departure_time = q.origin_aimed_departure_time)
    (hkey : ∀ p ∈ db, ∀ q ∈ db, journey_date_line_ref p = journey_date_line_ref q →
      p.origin_aimed_departure_time = q.origin_aimed_departure_time)
    (s : Int) (c : Nat) (kstr : String)
    (hqual : qualKeyIn db s (s + 3600 * c) kstr) :
    (preprocess_locations (chunkFrame db s c) 2).filter
      (fun p => decide (journey_date_line_ref p = kstr)) = groupRows db kstr := by
  rcases hqual with ⟨p0, hp0, hk0, hsv0, hcnt0, hlo0, hhi0⟩
  have hin0 : inChunk s c p0 := ⟨hlo0, hhi0⟩
  have hLsorted : ((preprocess_locations (chunkFrame db s c) 2).filter
      (fun p => decide (journey_date_line_ref p = kstr))).Pairwise
      (fun a b => tsIdLE a b = true) := by
    refine List.Pairwise.filter _ ?_
    rw [preprocess_locations_def]
    exact pairwise_sortBy tsIdLE tsIdLE_total tsIdLE_trans _
  have hLnodup : (((preprocess_locations (chunkFrame db s c) 2).filter
      (fun p => decide (journey_date_line_ref p = kstr))).map Ping.id).Nodup :=
    List.Nodup.sublist ((List.filter_sublist _).map Ping.id)
      (processed_nodup_ids db hids s c)
  -- the left-hand side is a permutation of one filter of the stored table
  have hcount_eq : ∀ a : Ping, journey_date_line_ref a = kstr →
      countKey (journey_date_line_ref a)
        ((chunkFrame db s c).filter (fun q => decide (survivor db q)))
        = survCount db (journey_date_line_ref a) := by
    intro a hkeq
    rw [← chunkFrame_dedup db hids hdd s c]
    refine chunkFrame_countKey db hids hdd hkey s c (journey_date_line_ref a)
      p0 hp0 ?_ hin0
    rw [hk0, hkeq]
  have hL : ((preprocess_locations (chunkFrame db s c) 2).filter
      (fun p => decide (journey_date_line_ref p = kstr))).Perm
      (db.filter (fun a => decide (survivor db a)
        && decide (journey_date_line_ref a = kstr))) := by
    rw [preprocess_locations_def, chunkFrame_dedup db hids hdd s c]
    refine ((perm_sortBy tsIdLE _).filter _).trans ?_
    rw [List.filter_filter, List.filter_filter]
    refine (((chunkFrame_perm db s c).filter _)).trans ?_
    rw [List.filter_filter]
    apply List.Perm.of_eq
    refine List.filter_congr ?_
    intro a ha
    cases hjr : decide (journey_date_line_ref a = kstr) with
    | false => simp
    | true =>
      have hkeq : journey_date_line_ref a = kstr := of_decide_eq_true hjr
      have hdep : a.origin_aimed_departure_time
          = p0.origin_aimed_departure_time :=
        hkey a ha p0 hp0 (by rw [hkeq, hk0])
      have hain : inChunk s c a := by
        unfold inChunk at hin0 ⊢
        omega
      have hW : decide (inChunk s c a) = true := decide_eq_true hain
      have hcnt : decide (2 ≤ countKey (journey_date_line_ref a)
          ((chunkFrame db s c).filter (fun q => decide (survivor db q)))) = true := by
        apply decide_eq_true
        rw [hcount_eq a hkeq, hkeq]
        exact hcnt0
      cases hsv : decide (survivor db a) <;> simp [hW, hcnt]
  have hR : (groupRows db kstr).Perm
      (db.filter (fun a => decide (survivor db a)
        && decide (journey_date_line_ref a = kstr))) := perm_sortBy tsIdLE _
  exact eq_of_perm_sorted_tsId _ _ (hL.trans hR.symm) hLsorted
    (groupRows_sorted db kstr) hLnodup

theorem map_some_getD (x : Except PyError (List JRow)) :
    (x.map (fun rows => some rows)).map
      (fun res : Option (List JRow) => res.getD []) = x := by
  cases x <;> rfl

theorem summarise_all_journeys_def (gdist : ℚ → ℚ → ℚ → ℚ → ℚ)
    (locations_df : List Ping) :
    summarise_all_journeys gdist locations_df
      = exceptMapList
          (fun k => summarise_journey gdist
            (locations_df.filter (fun p => decide (journey_date_line_ref p = k))))
          (firstOccKeysAux [] locations_df) := rfl

theorem chunkRows_normal (gdist : ℚ → ℚ → ℚ → ℚ → ℚ) (db : List Ping)
    (hids : (db.map Ping.id).Nodup)
    (hdd : ∀ p ∈ db, ∀ q ∈ db, dedupKey p = dedupKey q →
      p.origin_aimed_departure_time = q.origin_aimed_departure_time)
    (hkey : ∀ p ∈ db, ∀ q ∈ db, journey_date_line_ref p = journey_date_line_ref q →
      p.origin_aimed_departure_time = q.origin_aimed_departure_time)
    (s : Int) (c : Nat) :
    chunkRows gdist db s c
      = exceptMapList
          (fun kstr => summarise_journey gdist (groupRows db kstr))
          (chunkKeys db s c) := by
  by_cases hg : 1 < (chunkFrame db s c).length
  · by_cases hp : 1 ≤ (preprocess_locations (chunkFrame db s c) 2).length
    · have h1 : chunkRows gdist db s c
          = summarise_all_journeys gdist
              (preprocess_locations (chunkFrame db s c) 2) := by
        show (if 1 < (chunkFrame db s c).length then
          (convert_locations_to_journey_summaries gdist
            (chunkFrame db s c)).map (fun res => res.getD []) else Except.ok [])
          = _
        rw [if_pos hg]
        show ((if 1 ≤ (preprocess_locations (chunkFrame db s c) 2).length then
          (summarise_all_journeys gdist
            (preprocess_locations (chunkFrame db s c) 2)).map
              (fun rows => some rows)
          else Except.ok none).map (fun res : Option (List JRow) => res.getD []))
          = _
        rw [if_pos hp, map_some_getD]
      rw [h1, summarise_all_journeys_def]
      refine exceptMapList_congr _ _ _ ?_
      intro kstr hkstr
      have hqual : qualKeyIn db s (s + 3600 * c) kstr :=
        (chunkKeys_mem db hids hdd hkey s c kstr).mp hkstr
      rw [processed_group db hids hdd hkey s c kstr hqual]
    · have hempty : preprocess_locations (chunkFrame db s c) 2 = [] := by
        cases hp2 : preprocess_locations (chunkFrame db s c) 2 with
        | nil => rfl
        | cons x xs =>
          exfalso
          apply hp
          rw [hp2]
          exact Nat.succ_le_succ (Nat.zero_le xs.length)
      have hkeys : chunkKeys db s c = [] := by
        unfold chunkKeys
        rw [hempty]
        rfl
      rw [hkeys]
      show (if 1 < (chunkFrame db s c).length then
        (convert_locations_to_journey_summaries gdist
          (chunkFrame db s c)).map (fun res => res.getD []) else Except.ok [])
        = _
      rw [if_pos hg]
      show ((if 1 ≤ (preprocess_locations (chunkFrame db s c) 2).length then
        (summarise_all_journeys gdist
          (preprocess_locations (chunkFrame db s c) 2)).map
            (fun rows => some rows)
        else Except.ok none).map (fun res : Option (List JRow) => res.getD []))
        = _
      rw [if_neg hp]
      rfl
  · have hempty : preprocess_locations (chunkFrame db s c) 2 = [] := by
      cases hp2 : preprocess_locations (chunkFrame db s c) 2 with
      | nil => rfl
      | cons x xs =>
        exfalso
        have hx : x ∈ preprocess_locations (chunkFrame db s c) 2 := by
          rw [hp2]
          exact List.mem_cons_self x xs
        rcases (processed_mem db hids hdd hkey s c x).mp hx with
          ⟨hxdb, hxin, hxsv, hxcnt⟩
        have hc1 : survCount db (journey_date_line_ref x)
            = countKey (journey_date_line_ref x)
              (keepFirstDedup [] (chunkFrame db s c)) :=
          (chunkFrame_countKey db hids hdd hkey s c _ x hxdb rfl hxin).symm
        have hc2 : countKey (journey_date_line_ref x)
            (keepFirstDedup [] (chunkFrame db s c))
            ≤ (chunkFrame db s c).length := by
          unfold countKey
          exact Nat.le_trans (List.length_filter_le _ _)
            (keepFirstDedup_sublist (chunkFrame db s c) []).length_le
        omega
    have hkeys : chunkKeys db s c = [] := by
      unfold chunkKeys
      rw [hempty]
      rfl
    rw [hkeys]
    show (if 1 < (chunkFrame db s c).length then
      (convert_locations_to_journey_summaries gdist
        (chunkFrame db s c)).map (fun res => res.getD []) else Except.ok [])
      = _
    rw [if_neg hg]
    rfl

theorem processChunks_normal (gdist : ℚ → ℚ → ℚ → ℚ → ℚ) (db : List Ping)
    (c : Nat) (chunks : List Int)
    (h : ∀ s ∈ chunks, chunkRows gdist db s c
      = exceptMapList
          (fun kstr => summarise_journey gdist (groupRows db kstr))
          (chunkKeys db s c)) :
    processChunks gdist db c chunks
      = exceptMapList
          (fun kstr => summarise_journey gdist (groupRows db kstr))
          ((chunks.map (fun s => chunkKeys db s c)).flatten) := by
  induction chunks with
  | nil => rfl
  | cons s rest ih =>
    show (match chunkRows gdist db s c with
      | Except.error e => Except.error e
      | Except.ok rows => (processChunks gdist db c rest).map
          (fun acc => rows ++ acc)) = _
    rw [h s (List.mem_cons_self s rest),
      ih (fun x hx => h x (List.mem_cons_of_mem s hx)),
      List.map_cons, List.flatten_cons, exceptMapList_append]
    cases hchunk : exceptMapList
        (fun kstr => summarise_journey gdist (groupRows db kstr))
        (chunkKeys db s c) with
    | error e => rfl
    | ok rows => rfl

theorem numChunks_eq (start_dt : Int) (c m : Nat) (hc : 1 ≤ c) :
    numChunks start_dt (start_dt + 3600 * c * m) c = m := by
  unfold numChunks
  have hc' : (1 : Int) ≤ (c : Int) := by exact_mod_cast hc
  cases m with
  | zero =>
    have hcon : ¬ start_dt ≤ start_dt + 3600 * (c : Int) * ((0 : Nat) : Int)
        - 3600 * (c : Int) := by
      push_cast
      simp only [mul_zero]
      omega
    rw [if_neg hcon]
  | succ m0 =>
    have hpos : (0 : Int) ≤ 3600 * c * m0 := by positivity
    have hcond : start_dt ≤ start_dt + 3600 * (c : Int) * ((Nat.succ m0 : Nat) : Int)
        - 3600 * (c : Int) := by
      push_cast
      nlinarith
    rw [if_pos hcond]
    have he2 : start_dt + 3600 * c * (Nat.succ m0 : Int) - 3600 * c - start_dt
        = ((3600 * c * m0 : Nat) : Int) := by
      push_cast
      ring
    rw [he2, Int.toNat_natCast, Nat.mul_div_cancel_left m0 (by omega : 0 < 3600 * c)]

theorem runKeys_mem (db : List Ping)
    (hids : (db.map Ping.id).Nodup)
    (hdd : ∀ p ∈ db, ∀ q ∈ db, dedupKey p = dedupKey q →
      p.origin_aimed_departure_time = q.origin_aimed_departure_time)
    (hkey : ∀ p ∈ db, ∀ q ∈ db, journey_date_line_ref p = journey_date_line_ref q →
      p.origin_aimed_departure_time = q.origin_aimed_departure_time)
    (start_dt end_dt : Int) (c m : Nat) (hc : 1 ≤ c)
    (hspan : end_dt = start_dt + 3600 * c * m) (kstr : String) :
    kstr ∈ runKeys db start_dt end_dt c ↔
      qualKeyIn db start_dt end_dt kstr := by
  subst hspan
  have hc' : (1 : Int) ≤ (c : Int) := by exact_mod_cast hc
  have hC : (0 : Int) < 3600 * (c : Int) := by nlinarith
  unfold runKeys
  rw [List.mem_flatten]
  constructor
  · rintro ⟨keys, hkeys, hk⟩
    rcases List.mem_map.mp hkeys with ⟨st, hst, rfl⟩
    rcases (mem_chunkStarts _ _ _ st).mp hst with ⟨i, hi, rfl⟩
    rcases (chunkKeys_mem db hids hdd hkey _ c kstr).mp hk with
      ⟨p, hp, hjref, hsv, hcnt, hlo, hhi⟩
    refine ⟨p, hp, hjref, hsv, hcnt, ?_, ?_⟩
    · have hnn : (0 : Int) ≤ 3600 * (c : Int) * (i : Int) := by positivity
      linarith
    · rw [numChunks_eq start_dt c m hc] at hi
      have hi1 : ((i : Int) + 1) ≤ (m : Int) := by exact_mod_cast hi
      nlinarith
  · rintro ⟨p, hp, hjref, hsv, hcnt, hlo, hhi⟩
    have hdiff : (0 : Int) ≤ p.origin_aimed_departure_time - start_dt := by omega
    have hq := Int.ediv_add_emod (p.origin_aimed_departure_time - start_dt)
      (3600 * (c : Int))
    have hr0 : 0 ≤ (p.origin_aimed_departure_time - start_dt) % (3600 * (c : Int)) :=
      Int.emod_nonneg _ (ne_of_gt hC)
    have hrlt : (p.origin_aimed_departure_time - start_dt) % (3600 * (c : Int))
        < 3600 * (c : Int) := Int.emod_lt_of_pos _ hC
    have hq0 : 0 ≤ (p.origin_aimed_departure_time - start_dt) / (3600 * (c : Int)) :=
      Int.ediv_nonneg hdiff (le_of_lt hC)
    have hqm : (p.origin_aimed_departure_time - start_dt) / (3600 * (c : Int))
        < (m : Int) := by nlinarith
    have htn : (((p.origin_aimed_departure_time - start_dt)
        / (3600 * (c : Int))).toNat : Int)
        = (p.origin_aimed_departure_time - start_dt) / (3600 * (c : Int)) :=
      Int.toNat_of_nonneg hq0
    have hidx : ((p.origin_aimed_departure_time - start_dt)
        / (3600 * (c : Int))).toNat < m := by omega
    refine ⟨chunkKeys db (start_dt + 3600 * c
      * (((p.origin_aimed_departure_time - start_dt)
          / (3600 * (c : Int))).toNat : Int)) c,
      List.mem_map.mpr ⟨_, (mem_chunkStarts _ _ _ _).mpr
        ⟨_, by rw [numChunks_eq start_dt c m hc]; exact hidx, rfl⟩, rfl⟩, ?_⟩
    refine (chunkKeys_mem db hids hdd hkey _ c kstr).mpr ?_
    refine ⟨p, hp, hjref, hsv, hcnt, ?_, ?_⟩
    · rw [htn]
      linarith
    · rw [htn]
      linarith

theorem runKeys_nodup (db : List Ping)
    (hids : (db.map Ping.id).Nodup)
    (hdd : ∀ p ∈ db, ∀ q ∈ db, dedupKey p = dedupKey q →
      p.origin_aimed_departure_time = q.origin_aimed_departure_time)
    (hkey : ∀ p ∈ db, ∀ q ∈ db, journey_date_line_ref p = journey_date_line_ref q →
      p.origin_aimed_departure_time = q.origin_aimed_departure_time)
    (start_dt end_dt : Int) (c : Nat) (hc : 1 ≤ c) :
    (runKeys db start_dt end_dt c).Nodup := by
  have hc' : (1 : Int) ≤ (c : Int) := by exact_mod_cast hc
  have hC : (0 : Int) < 3600 * (c : Int) := by nlinarith
  unfold runKeys
  rw [List.nodup_flatten]
  constructor
  · intro lkeys hl
    rcases List.mem_map.mp hl with ⟨st, _, rfl⟩
    exact chunkKeys_nodup db st c
  · unfold chunkStarts
    rw [List.map_map]
    refine List.Pairwise.map _ ?_ (List.pairwise_lt_range (numChunks start_dt end_dt c))
    intro i j hij
    intro kstr hk1 hk2
    rcases (chunkKeys_mem db hids hdd hkey _ c kstr).mp hk1 with
      ⟨p1, hp1, hjref1, _, _, hlo1, hhi1⟩
    rcases (chunkKeys_mem db hids hdd hkey _ c kstr).mp hk2 with
      ⟨p2, hp2, hjref2, _, _, hlo2, hhi2⟩
    have hdep : p1.origin_aimed_departure_time = p2.origin_aimed_departure_time :=
      hkey p1 hp1 p2 hp2 (by rw [hjref1, hjref2])
    have hij1 : ((i : Int) + 1) ≤ (j : Int) := by exact_mod_cast hij
    dsimp only at hlo1 hhi1 hlo2 hhi2
    nlinarith

theorem process_day_normal (gdist : ℚ → ℚ → ℚ → ℚ → ℚ) (db : List Ping)
    (hids : (db.map Ping.id).Nodup)
    (hdd : ∀ p ∈ db, ∀ q ∈ db, dedupKey p = dedupKey q →
      p.origin_aimed_departure_time = q.origin_aimed_departure_time)
    (hkey : ∀ p ∈ db, ∀ q ∈ db, journey_date_line_ref p = journey_date_line_ref q →
      p.origin_aimed_departure_time = q.origin_aimed_departure_time)
    (start_dt end_dt : Int) (c : Nat) :
    process_day gdist db start_dt end_dt c
      = exceptMapList
          (fun kstr => summarise_journey gdist (groupRows db kstr))
          (runKeys db start_dt end_dt c) := by
  unfold process_day runKeys
  exact processChunks_normal gdist db c (chunkStarts start_dt end_dt c)
    (fun s _ => chunkRows_normal gdist db hids hdd hkey s c)

/-- C1 (amended): for a span that is a whole number of days, processing with
one-hour chunks and with one-day chunks either raises the same exception or
produces the same multiset of journey-summary rows, provided the stored pings
have pairwise distinct ingestion ids (the primary key) and any two pings
agreeing on the deduplication key — and any two pings agreeing on the derived
journey key — share one scheduled departure time.  Without the
deduplication-key proviso the claim is false (see the counterexample): a
duplicate pair whose two departure times fall in different one-hour chunks is
deduplicated by the one-day run but not by the one-hour run. -/
theorem process_day_chunk_size_invariance (gdist : ℚ → ℚ → ℚ → ℚ → ℚ)
    (db : List Ping)
    (hids : (db.map Ping.id).Nodup)
    (hdd : ∀ p ∈ db, ∀ q ∈ db, dedupKey p = dedupKey q →
      p.origin_aimed_departure_time = q.origin_aimed_departure_time)
    (hkey : ∀ p ∈ db, ∀ q ∈ db, journey_date_line_ref p = journey_date_line_ref q →
      p.origin_aimed_departure_time = q.origin_aimed_departure_time)
    (start_dt end_dt : Int) (k : Nat)
    (hspan : end_dt = start_dt + 86400 * k) :
    resultsMatch (process_day gdist db start_dt end_dt 1)
      (process_day gdist db start_dt end_dt 24) := by
  have hspan1 : end_dt = start_dt + 3600 * (1 : Nat) * ((24 * k : Nat) : Int) := by
    rw [hspan]
    push_cast
    ring
  have hspan24 : end_dt = start_dt + 3600 * (24 : Nat) * (k : Int) := by
    rw [hspan]
    push_cast
    ring
  rw [process_day_normal gdist db hids hdd hkey start_dt end_dt 1,
    process_day_normal gdist db hids hdd hkey start_dt end_dt 24]
  apply exceptMapList_match_of_perm _ (PyError.keyError "speed")
  · refine (List.perm_ext_iff_of_nodup
      (runKeys_nodup db hids hdd hkey start_dt end_dt 1 (by omega))
      (runKeys_nodup db hids hdd hkey start_dt end_dt 24 (by omega))).mpr ?_
    intro kstr
    rw [runKeys_mem db hids hdd hkey start_dt end_dt 1 (24 * k) (by omega)
      hspan1 kstr,
      runKeys_mem db hids hdd hkey start_dt end_dt 24 k (by omega)
      hspan24 kstr]
  · intro kstr hk e hfe
    rcases (runKeys_mem db hids hdd hkey start_dt end_dt 1 (24 * k) (by omega)
      hspan1 kstr).mp hk with ⟨p, hp, hjref, hsv, _, _, _⟩
    have hne : groupRows db kstr ≠ [] := by
      intro h0
      have hpmem : p ∈ groupRows db kstr := by
        unfold groupRows
        rw [mem_sortBy, List.mem_filter]
        refine ⟨hp, ?_⟩
        rw [Bool.and_eq_true, decide_eq_true_iff, decide_eq_true_iff]
        exact ⟨hsv, hjref⟩
      rw [h0] at hpmem
      cases hpmem
    exact summarise_journey_error_speed gdist _ hne e hfe

/-- C1 (counterexample to the claim as stated): on the stored table `ceDb` —
where ping 3 duplicates ping 1 on the whole deduplication key but belongs to a
journey scheduled in a different hour — the one-hour-chunk run summarises both
journeys while the one-day-chunk run deduplicates ping 3 away, drops the
second journey below the two-ping threshold, and summarises only the first:
the two runs produce different sets of journey summaries. -/
theorem process_day_chunk_size_counterexample :
    (process_day taxicab ceDb 0 86400 1).map
        (fun rows => rows.map JRow.journey_date_line_ref)
      = Except.ok ["OP_1800_L_J1", "OP_5400_L_J2"]
    ∧ (process_day taxicab ceDb 0 86400 24).map
        (fun rows => rows.map JRow.journey_date_line_ref)
      = Except.ok ["OP_1800_L_J1"]
    ∧ ¬ resultsMatch (process_day taxicab ceDb 0 86400 1)
        (process_day taxicab ceDb 0 86400 24) := by
  have h1 : (process_day taxicab ceDb 0 86400 1).map
      (fun rows => rows.map JRow.journey_date_line_ref)
      = Except.ok ["OP_1800_L_J1", "OP_5400_L_J2"] := by
    norm_num [process_day, processChunks, chunkRows, chunkFrame, chunkStarts,
      numChunks, inChunk, convert_locations_to_journey_summaries,
      preprocess_locations, keepFirstDedup, dedupKey, countKey,
      summarise_all_journeys, firstOccKeysAux, exceptMapList, summarise_journey,
      summarise_journey_stats, calculate_deltas, mkDelta, deltaColumns,
      qsum, qmean, qmedian, qmin, qmax, qLE, sortBy, insertSortedBy,
      tsIdLE, idLE, hourBucket, floorHour, dayFloor, vehicle_journey_date_ref,
      journey_date_line_ref, depString, taxicab, mkPing, ceDb, Except.map,
      List.range_succ]
    decide
  have h24 : (process_day taxicab ceDb 0 86400 24).map
      (fun rows => rows.map JRow.journey_date_line_ref)
      = Except.ok ["OP_1800_L_J1"] := by
    norm_num [process_day, processChunks, chunkRows, chunkFrame, chunkStarts,
      numChunks, inChunk, convert_locations_to_journey_summaries,
      preprocess_locations, keepFirstDedup, dedupKey, countKey,
      summarise_all_journeys, firstOccKeysAux, exceptMapList, summarise_journey,
      summarise_journey_stats, calculate_deltas, mkDelta, deltaColumns,
      qsum, qmean, qmedian, qmin, qmax, qLE, sortBy, insertSortedBy,
      tsIdLE, idLE, hourBucket, floorHour, dayFloor, vehicle_journey_date_ref,
      journey_date_line_ref, depString, taxicab, mkPing, ceDb, Except.map,
      List.range_succ]
    decide
  refine ⟨h1, h24, ?_⟩
  intro hm
  cases hr1 : process_day taxicab ceDb 0 86400 1 with
  | error e =>
    rw [hr1] at h1
    cases h1
  | ok l1 =>
    cases hr24 : process_day taxicab ceDb 0 86400 24 with
    | error e =>
      rw [hr24] at h24
      cases h24
    | ok l24 =>
      rw [hr1, hr24] at hm
      rw [hr1] at h1
      rw [hr24] at h24
      have hperm : l1.Perm l24 := hm
      have hperm2 : (l1.map JRow.journey_date_line_ref).Perm
          (l24.map JRow.journey_date_line_ref) := hperm.map _
      have hmap1 : l1.map JRow.journey_date_line_ref
          = ["OP_1800_L_J1", "OP_5400_L_J2"] := by
        simpa [Except.map] using h1
      have hmap24 : l24.map JRow.journey_date_line_ref = ["OP_1800_L_J1"] := by
        simpa [Except.map] using h24
      rw [hmap1, hmap24] at hperm2
      have hlen := hperm2.length_eq
      simp at hlen

/-- Witness for `process_day_chunk_size_invariance`: a one-day span over four
stored pings with distinct ingestion ids, pairwise distinct deduplication
keys, and departure-time-determined journey keys. -/
theorem process_day_chunk_size_invariance_witness :
    ((goodDb.map Ping.id).Nodup
      ∧ (∀ p ∈ goodDb, ∀ q ∈ goodDb, dedupKey p = dedupKey q →
          p.origin_aimed_departure_time = q.origin_aimed_departure_time)
      ∧ (∀ p ∈ goodDb, ∀ q ∈ goodDb,
          journey_date_line_ref p = journey_date_line_ref q →
          p.origin_aimed_departure_time = q.origin_aimed_departure_time)
      ∧ (86400 : Int) = 0 + 86400 * ((1 : Nat) : Int))
    ∧ resultsMatch (process_day taxicab goodDb 0 86400 1)
        (process_day taxicab goodDb 0 86400 24) :=
  ⟨⟨by decide, by decide, by decide, by decide⟩,
    process_day_chunk_size_invariance taxicab goodDb (by decide) (by decide)
      (by decide) 0 86400 1 (by decide)⟩
